import Mathlib

/-!
# Verification of the gifx streaming GIF codec and frame optimizer

A shallow embedding of the gifx repository (a streaming GIF encoder/decoder
with an inter-frame optimizer).  Byte streams are `List Nat` with every
element a byte value (`< 256` where the code guarantees it); machine
integer conversions (`uint16(..)`, `byte(..)`) are explicit `% 2^w`.

Coordinates are natural numbers: the GIF wire format stores all positions
and sizes as unsigned 16-bit values, and all images handled by the
repository's code paths have non-negative coordinates.

The repository's `reader.go` and `writer.go` (forked unchanged from Go 1.18
`image/gif`) are not part of the sources under verification; the header,
graphic-control and image-block codecs they contain are modelled from the
specification where needed, and marked as such.
-/

deriving instance DecidableEq for Except

namespace Gifx

/-! ## Rectangles (model of Go `image.Rectangle`, non-negative coordinates) -/

structure Rect where
  minX : Nat
  minY : Nat
  maxX : Nat
  maxY : Nat
deriving DecidableEq, Repr

def Rect.zero : Rect := ⟨0, 0, 0, 0⟩

/-- Go `Rectangle.Empty`. -/
def Rect.isEmpty (r : Rect) : Bool :=
  r.maxX ≤ r.minX || r.maxY ≤ r.minY

/-- Go `Rectangle.Union`. -/
def Rect.union (r s : Rect) : Rect :=
  if r.isEmpty then s
  else if s.isEmpty then r
  else ⟨min r.minX s.minX, min r.minY s.minY, max r.maxX s.maxX, max r.maxY s.maxY⟩

/-- Go `Rectangle.In`. -/
def Rect.inside (r s : Rect) : Bool :=
  if r.isEmpty then true
  else s.minX ≤ r.minX && r.maxX ≤ s.maxX && s.minY ≤ r.minY && r.maxY ≤ s.maxY

/-- Go `Rectangle.Eq`: equal, or both empty. -/
def Rect.eqR (r s : Rect) : Bool :=
  (r == s) || (r.isEmpty && s.isEmpty)

/-- Go `Rectangle.Intersect` (clamped subtraction stands in for the
`Max/Min` arithmetic; the zero rectangle is returned when empty). -/
def Rect.intersect (r s : Rect) : Rect :=
  let t : Rect := ⟨max r.minX s.minX, max r.minY s.minY, min r.maxX s.maxX, min r.maxY s.maxY⟩
  if t.isEmpty then Rect.zero else t

/-- Point membership `p ∈ r`. -/
def Rect.mem (r : Rect) (x y : Nat) : Bool :=
  r.minX ≤ x && x < r.maxX && r.minY ≤ y && y < r.maxY

def Rect.width (r : Rect) : Nat := r.maxX - r.minX
def Rect.height (r : Rect) : Nat := r.maxY - r.minY

/-! ## Colors and paletted images (model of Go `image.Paletted`) -/

structure Color where
  r : Nat
  g : Nat
  b : Nat
  a : Nat
deriving DecidableEq, Repr

structure PalImg where
  rect : Rect
  stride : Nat
  pix : List Nat
  palette : List Color
deriving DecidableEq, Repr

/-- Go `Paletted.PixOffset` (valid for points inside the rectangle). -/
def PalImg.pixOffset (p : PalImg) (x y : Nat) : Nat :=
  (y - p.rect.minY) * p.stride + (x - p.rect.minX)

/-- Pixel value at a point (0 when out of range, which faithful uses avoid). -/
def PalImg.pixAt (p : PalImg) (x y : Nat) : Nat :=
  p.pix.getD (p.pixOffset x y) 0

/-- Go `Paletted.SubImage`: intersects the requested rectangle with the
image's own, then shares the pixel buffer from the offset of the new
minimum corner. -/
def PalImg.subImage (p : PalImg) (r : Rect) : PalImg :=
  let r' := r.intersect p.rect
  if r'.isEmpty then ⟨Rect.zero, 0, [], []⟩
  else ⟨r', p.stride, p.pix.drop (p.pixOffset r'.minX r'.minY), p.palette⟩

/-! ## The frame optimizer

`Optimizer` holds a mirror image `pm` and a scratch vector `xs` whose head
is the transparent index.  Go slice mutation is modelled by threading the
buffers through the loop state; `copy(dst[i0:i], src)` becomes `setRange`.
-/

/-- `copy(l[i0:], vs)` on a Go slice: overwrite `l` from position `i0` with
the elements of `vs`, stopping at the end of either list. -/
def setRange : List Nat → Nat → List Nat → List Nat
  | [], _, _ => []
  | l, _, [] => l
  | _ :: l, 0, v :: vs => v :: setRange l 0 vs
  | a :: l, i+1, vs => a :: setRange l i vs

/-- The `for len(o.xs) < n { o.xs = append(o.xs, o.xs...) }` growth loop,
with structural fuel: `n` doublings always reach length `n` from a
non-empty list, so `growXs` below runs it with fuel `n` and the fuel is
never exhausted on the source's states (where `xs` starts non-empty as
`[transparentIndex]`). -/
def growXsF : Nat → List Nat → Nat → List Nat
  | 0, xs, _ => xs
  | k + 1, xs, n => if xs.length < n ∧ xs.length ≠ 0 then growXsF k (xs ++ xs) n else xs

def growXs (xs : List Nat) (n : Nat) : List Nat := growXsF n xs n

/-- Loop state of `Optimizer.optimizeByPix`: the frame buffer `bpix`, the
mirror buffer `mpix`, the scratch vector, the accumulated crop and the
run-tracking variables `same`, `i0`, `x0`, `y0`. -/
structure RunSt where
  bpix : List Nat
  mpix : List Nat
  xs : List Nat
  crop : Rect
  same : Bool
  i0 : Nat
  x0 : Nat
  y0 : Nat
deriving Repr

/-- `pm.Pix[i] == o.pm.Pix[i] || pm.Pix[i] == o.xs[0]`. -/
def bpCond (s : RunSt) (i : Nat) : Bool :=
  (s.bpix.getD i 0 == s.mpix.getD i 0) || (s.bpix.getD i 0 == s.xs.getD 0 0)

/-- One iteration of the `optimizeByPix` loop body at index `i`. -/
def byPixStep (stri len i : Nat) (s : RunSt) : RunSt :=
  if i = 0 then { s with same := bpCond s 0 }
  else if i = len || bpCond s i != s.same then
    let x := i % stri
    let y := i / stri
    if s.same then
      let xs' := growXs s.xs (i - s.i0)
      { s with bpix := setRange s.bpix s.i0 (xs'.take (i - s.i0)),
               xs := xs', same := !s.same, i0 := i, x0 := x, y0 := y }
    else
      let r : Rect := if y > s.y0 then ⟨0, s.y0, stri, y + 1⟩ else ⟨s.x0, s.y0, x, y + 1⟩
      { s with mpix := setRange s.mpix s.i0 ((s.bpix.drop s.i0).take (i - s.i0)),
               crop := if s.crop.isEmpty then r else s.crop.union r,
               same := !s.same, i0 := i, x0 := x, y0 := y }
  else s

/-- The `for i := 0; i <= len(pm.Pix); i++` loop of `optimizeByPix`, with
structural fuel (one unit per iteration; `byPixLoop` supplies exactly
`len + 1`). -/
def byPixN : Nat → Nat → Nat → Nat → RunSt → RunSt
  | 0, _, _, _, s => s
  | k + 1, stri, len, i, s =>
    if i > len then s
    else byPixN k stri len (i + 1) (byPixStep stri len i s)

def byPixLoop (stri len : Nat) (s : RunSt) : RunSt :=
  byPixN (len + 1) stri len 0 s

/-- Loop state of `Optimizer.optimizeByLine`: buffers plus the per-line
cursors `i` (mirror offset), `j` (frame offset) and run registers. -/
structure LineSt where
  bpix : List Nat
  mpix : List Nat
  xs : List Nat
  crop : Rect
  same : Bool
  i0 : Nat
  j0 : Nat
  x0 : Nat
  i : Nat
  j : Nat
deriving Repr

/-- `pm.Pix[j] == o.pm.Pix[i] || pm.Pix[j] == o.xs[0]`. -/
def blCond (s : LineSt) : Bool :=
  (s.bpix.getD s.j 0 == s.mpix.getD s.i 0) || (s.bpix.getD s.j 0 == s.xs.getD 0 0)

/-- Body of the inner `for x := x0; x <= pm.Rect.Max.X; x++` loop of
`optimizeByLine` (without the trailing `i++; j++`). -/
def byLineBody (maxX y x : Nat) (s : LineSt) : LineSt :=
  if x = s.x0 then { s with same := blCond s, i0 := s.i, j0 := s.j }
  else if x = maxX || blCond s != s.same then
    if s.same then
      let xs' := growXs s.xs (s.j - s.j0)
      { s with bpix := setRange s.bpix s.j0 (xs'.take (s.j - s.j0)),
               xs := xs', same := !s.same, i0 := s.i, j0 := s.j, x0 := x }
    else
      let r : Rect := ⟨s.x0, y, x, y + 1⟩
      { s with mpix := setRange s.mpix s.i0 ((s.bpix.drop s.j0).take (s.j - s.j0)),
               crop := if s.crop.isEmpty then r else s.crop.union r,
               same := !s.same, i0 := s.i, j0 := s.j, x0 := x }
  else s

/-- The inner loop of `optimizeByLine`, incrementing both cursors after
each body evaluation; structural fuel, one unit per iteration. -/
def byLineInnerN : Nat → Nat → Nat → Nat → LineSt → LineSt
  | 0, _, _, _, s => s
  | k + 1, maxX, y, x, s =>
    if x > maxX then s
    else
      let s' := byLineBody maxX y x s
      byLineInnerN k maxX y (x + 1) { s' with i := s'.i + 1, j := s'.j + 1 }

def byLineInner (maxX y x : Nat) (s : LineSt) : LineSt :=
  byLineInnerN (maxX + 1 - x) maxX y x s

/-- The outer `for y := pm.Rect.Min.Y; y < pm.Rect.Max.Y; y++` loop of
`optimizeByLine` (structural fuel, one unit per row); `mR`/`mS` are the
mirror's rectangle and stride, `pR`/`pS` the frame's. -/
def byLineRowsN (mR : Rect) (mS : Nat) (pR : Rect) (pS : Nat) :
    Nat → Nat → LineSt → LineSt
  | 0, _, s => s
  | k + 1, y, s =>
    if y ≥ pR.maxY then s
    else
      let x0 := pR.minX
      let i := (y - mR.minY) * mS + (x0 - mR.minX)
      let j := (y - pR.minY) * pS + (x0 - pR.minX)
      let s1 := byLineInner pR.maxX y x0
        { s with same := false, i0 := 0, j0 := 0, x0 := x0, i := i, j := j }
      byLineRowsN mR mS pR pS k (y + 1) s1

def byLineLoop (mR : Rect) (mS : Nat) (pR : Rect) (pS : Nat) (y : Nat) (s : LineSt) : LineSt :=
  byLineRowsN mR mS pR pS (pR.maxY - y) y s

/-- `Optimizer` state: the optional mirror image and the scratch vector. -/
structure OptState where
  pm : Option PalImg
  xs : List Nat
deriving Repr

/-- `NewOptimizer(transparentIndex)`. -/
def NewOptimizer (transparentIndex : Nat) : OptState :=
  ⟨none, [transparentIndex]⟩

/-- First-call mirror construction: `image.NewPaletted(pm.Rect, pm.Palette)`
followed by `copy(o.pm.Pix, pm.Pix)` — a linear prefix copy of at most
`width*height` bytes into a zero-initialized width-stride buffer. -/
def mkMirror (pm : PalImg) : PalImg :=
  let n := pm.rect.width * pm.rect.height
  ⟨pm.rect, pm.rect.width, pm.pix.take n ++ List.replicate (n - pm.pix.length) 0, pm.palette⟩

/-- `Optimizer.Optimize`. -/
def optimize (o : OptState) (pm : PalImg) : Except String (PalImg × OptState) :=
  match o.pm with
  | none => .ok (pm, ⟨some (mkMirror pm), o.xs⟩)
  | some m =>
    if !(pm.rect.inside m.rect) then .error "image outside bounds"
    else
      let (bpix', mpix', xs', crop0) :=
        if pm.rect.eqR m.rect && pm.pix.length == m.pix.length then
          let s := byPixLoop pm.stride pm.pix.length
            ⟨pm.pix, m.pix, o.xs, Rect.zero, false, 0, 0, 0⟩
          (s.bpix, s.mpix, s.xs, s.crop)
        else
          let s := byLineLoop m.rect m.stride pm.rect pm.stride pm.rect.minY
            ⟨pm.pix, m.pix, o.xs, Rect.zero, false, 0, 0, 0, 0, 0⟩
          (s.bpix, s.mpix, s.xs, s.crop)
      let crop := if crop0.isEmpty then
          ⟨pm.rect.minX, pm.rect.minY, pm.rect.minX + 1, pm.rect.minY + 1⟩
        else crop0
      let pm' : PalImg := { pm with pix := bpix' }
      let result := if !(pm'.rect.eqR crop) then pm'.subImage crop else pm'
      .ok (result, ⟨some { m with pix := mpix' }, xs'⟩)

/-- The per-index comparison of `optimizeByPix` over the original buffers: the
frame pixel equals the mirror pixel or the transparent index. -/
def cond0 (B M : List Nat) (t j : Nat) : Bool :=
  (B.getD j 0 == M.getD j 0) || (B.getD j 0 == t)

/-- Loop invariant of `optimizeByPix` when about to process index `i`: the
current run `[i0, i)` is non-empty and uniform, the registers mirror `i0`,
the scratch is a non-empty all-transparent vector, the buffers are finalized
below `i0` (frame runs equal to the mirror or transparent overwritten with
the transparent index, differing runs copied into the mirror) and untouched
from `i0` on, the crop is still zero when no difference has been flushed,
and the crop covers every flushed differing index. -/
def RunInv (B M : List Nat) (t stri i : Nat) (s : RunSt) : Prop :=
  s.i0 < i ∧
  s.x0 = s.i0 % stri ∧ s.y0 = s.i0 / stri ∧
  (∀ j, s.i0 ≤ j → j < i → cond0 B M t j = s.same) ∧
  s.xs ≠ [] ∧ (∀ v ∈ s.xs, v = t) ∧
  s.bpix.length = B.length ∧
  (∀ j, s.bpix.getD j 0 = if j < s.i0 ∧ cond0 B M t j = true then t else B.getD j 0) ∧
  s.mpix.length = M.length ∧
  (∀ j, s.mpix.getD j 0 = if j < s.i0 ∧ cond0 B M t j = false then B.getD j 0 else M.getD j 0) ∧
  ((∀ j, j < s.i0 → cond0 B M t j = true) → s.crop = Rect.zero) ∧
  (∀ j, j < s.i0 → cond0 B M t j = false → s.crop.mem (j % stri) (j / stri) = true)

/-- Post-state of the `optimizeByPix` loop: every index of the frame buffer
that matched the mirror or the transparent index holds the transparent
index, every other index is unchanged; dually for the mirror buffer; the
crop is zero exactly when nothing differed, and covers every differing
index. -/
def RunFinal (B M : List Nat) (t stri : Nat) (s : RunSt) : Prop :=
  s.bpix.length = B.length ∧
  (∀ j, s.bpix.getD j 0 = if j < B.length ∧ cond0 B M t j = true then t else B.getD j 0) ∧
  s.mpix.length = M.length ∧
  (∀ j, s.mpix.getD j 0 = if j < B.length ∧ cond0 B M t j = false then B.getD j 0 else M.getD j 0) ∧
  s.xs ≠ [] ∧ (∀ v ∈ s.xs, v = t) ∧
  ((∀ j, j < B.length → cond0 B M t j = true) → s.crop = Rect.zero) ∧
  (∀ j, j < B.length → cond0 B M t j = false → s.crop.mem (j % stri) (j / stri) = true)

/-- Preserve-disposal compositing at a point: the top image's pixel where
the top image covers the point with a non-transparent index, the bottom
image's pixel otherwise. -/
def composite (bottom top : PalImg) (t x y : Nat) : Nat :=
  if top.rect.mem x y = true ∧ top.pixAt x y ≠ t then top.pixAt x y else bottom.pixAt x y

/-! ## Block model

The block types follow the declarations in the decoder source.  Delay
times are stored in 10-ms wire units (`uint16`, "delay time in 100ths of a
second"); the encoder's `time.Duration` front-end divides by 10 ms before
its `uint16` truncation, so the written wire value is `delayTime % 2^16`.
Strings are byte lists (Go strings are byte sequences). -/

structure PlainText where
  textGridLeftPosition : Nat
  textGridTopPosition : Nat
  textGridWidth : Nat
  textGridHeight : Nat
  characterCellWidth : Nat
  characterCellHeight : Nat
  textForegroundColorIndex : Nat
  textBackgroundColorIndex : Nat
  strings : List (List Nat)
  delayTime : Nat
  disposalMethod : Nat
deriving DecidableEq, Repr

structure Comment where
  strings : List (List Nat)
deriving DecidableEq, Repr

structure ApplicationNetscape where
  loopCount : Int
  subBlocks : List (List Nat)
deriving DecidableEq, Repr

structure UnknownApplication where
  identifier : List Nat
  subBlocks : List (List Nat)
deriving DecidableEq, Repr

structure UnknownExtension where
  label : Nat
  subBlocks : List (List Nat)
deriving DecidableEq, Repr

structure Frame where
  image : PalImg
  delayTime : Nat
  disposalMethod : Nat
deriving DecidableEq, Repr

inductive Block where
  | frame : Frame → Block
  | plainText : PlainText → Block
  | comment : Comment → Block
  | applicationNetscape : ApplicationNetscape → Block
  | unknownApplication : UnknownApplication → Block
  | unknownExtension : UnknownExtension → Block
deriving DecidableEq, Repr

/-- Screen configuration (`image.Config`); an empty palette models a nil
color model. -/
structure Config where
  width : Nat
  height : Nat
  palette : List Color
deriving DecidableEq, Repr

structure Header where
  version : List Nat
  config : Config
  backgroundIndex : Nat
deriving DecidableEq, Repr

/-! ## Wire constants -/

def sExtension : Nat := 0x21
def sImageDescriptor : Nat := 0x2C
def sTrailer : Nat := 0x3B
def eText : Nat := 0x01
def eGraphicControl : Nat := 0xF9
def eComment : Nat := 0xFE
def eApplication : Nat := 0xFF

/-- The bytes of `"NETSCAPE2.0"`. -/
def netscapeId : List Nat := [78, 69, 84, 83, 67, 65, 80, 69, 50, 46, 48]

/-- `writeUint16`: little-endian 16-bit write (with the `uint16` truncation
of the Go conversion made explicit). -/
def u16 (v : Nat) : List Nat := [v % 256, v / 256 % 256]

/-- `uint16(v)` for a Go `int`: two's-complement truncation to 16 bits. -/
def u16i (v : Int) : List Nat :=
  let w := (v % 65536).toNat
  [w % 256, w / 256]

/-! ## Encoder (from `encoder.go`; byte-sink output as a byte list) -/

/-- `validateString`.  The source iterates `for c := range str` and compares
the *position* `c` against `unicode.MaxASCII` — not the byte value.  The
positions Go yields are the rune-start byte indices; for ASCII data and for
isolated non-UTF-8 bytes these are exactly `0, …, len-1`, which is how the
iteration is modelled here. -/
def validateString (s : List Nat) : Except String Unit :=
  if s.length > 0xff then .error "string too long"
  else if (List.range s.length).any (fun c => c > 0x7f) then
    .error "string must only contain ASCII characters"
  else .ok ()

/-- The per-element loop of `validateStrings`. -/
def validateEach : List (List Nat) → Except String Unit
  | [] => .ok ()
  | s :: rest =>
    match validateString s with
    | .error e => .error e
    | .ok _ => validateEach rest

/-- `validateStrings`. -/
def validateStrings (ss : List (List Nat)) : Except String Unit :=
  if ss.length = 0 then .error "must provide at least one string"
  else validateEach ss

/-- `validateSubBlocks`. -/
def validateSubBlocks : List (List Nat) → Except String Unit
  | [] => .ok ()
  | sb :: rest =>
    if sb.length > 0xff then .error "sub-block too long"
    else validateSubBlocks rest

/-- `Encoder.writeStrings`: each string as `[len][bytes]`, then `0x00`. -/
def writeStrings (ss : List (List Nat)) : List Nat :=
  ss.flatMap (fun s => s.length % 256 :: s) ++ [0x00]

/-- `Encoder.writeSubBlocks`: identical framing for raw sub-blocks. -/
def writeSubBlocks (sbs : List (List Nat)) : List Nat :=
  sbs.flatMap (fun sb => sb.length % 256 :: sb) ++ [0x00]

/-- `Encoder.WriteComment`. -/
def WriteComment (c : Comment) : Except String (List Nat) :=
  match validateStrings c.strings with
  | .error e => .error ("gif: comment " ++ e)
  | .ok _ => .ok ([sExtension, eComment] ++ writeStrings c.strings)

/-- `Encoder.WritePlainText`: an optional graphic-control extension (when
delay or disposal is non-zero), then the 15-byte plain-text header and the
framed strings. -/
def WritePlainText (pt : PlainText) : Except String (List Nat) :=
  match validateStrings pt.strings with
  | .error e => .error ("gif: plain text " ++ e)
  | .ok _ =>
    let gce : List Nat :=
      if pt.delayTime > 0 || pt.disposalMethod ≠ 0 then
        [sExtension, eGraphicControl, 0x04, pt.disposalMethod * 4 % 256] ++
          u16 pt.delayTime ++ [0x00, 0x00]
      else []
    .ok (gce ++ [sExtension, eText, 0x0c] ++
      u16 pt.textGridLeftPosition ++ u16 pt.textGridTopPosition ++
      u16 pt.textGridWidth ++ u16 pt.textGridHeight ++
      [pt.characterCellWidth % 256, pt.characterCellHeight % 256,
       pt.textForegroundColorIndex % 256, pt.textBackgroundColorIndex % 256] ++
      writeStrings pt.strings)

/-- `Encoder.WriteApplicationNetscape`: always writes the loop sub-block
`[0x03][0x01][loop-count u16 LE]` before the caller's sub-blocks. -/
def WriteApplicationNetscape (an : ApplicationNetscape) : Except String (List Nat) :=
  match validateSubBlocks an.subBlocks with
  | .error e => .error ("gif: application " ++ e)
  | .ok _ =>
    .ok ([sExtension, eApplication, 0x0b] ++ netscapeId ++
      [0x03, 0x01] ++ u16i an.loopCount ++ writeSubBlocks an.subBlocks)

/-- `Encoder.WriteUnknownApplication`. -/
def WriteUnknownApplication (ua : UnknownApplication) : Except String (List Nat) :=
  match validateString ua.identifier with
  | .error e => .error ("gif: application identifier " ++ e)
  | .ok _ =>
    match validateSubBlocks ua.subBlocks with
    | .error e => .error ("gif: application " ++ e)
    | .ok _ =>
      .ok ([sExtension, eApplication, ua.identifier.length % 256] ++
        ua.identifier ++ writeSubBlocks ua.subBlocks)

/-- `Encoder.WriteUnknownExtension`. -/
def WriteUnknownExtension (ue : UnknownExtension) : Except String (List Nat) :=
  match validateSubBlocks ue.subBlocks with
  | .error e => .error ("gif: extension " ++ e)
  | .ok _ => .ok ([sExtension, ue.label % 256] ++ writeSubBlocks ue.subBlocks)

/-! ## Header and image-block codec (spec-modelled)

`writer.go`/`reader.go` (forked unchanged from Go 1.18 `image/gif`) are not
among the sources; the header, graphic-control and image-block codecs are
modelled from the specification (§4.2, §4.3, §4.7).  The LZW raster codec
is external (§6) and is passed in as a pair of functions
`lzwE lzwD : Nat → List Nat → List Nat` (min code size → stream → stream)
assumed to satisfy `lzwD k (lzwE k s) = s`. -/

/-- Ceiling base-2 logarithm (`⌈log₂ n⌉`), written with structural fuel so
that it evaluates definitionally (halving at least once per step, `n` units
of fuel always suffice). -/
def clog2F : Nat → Nat → Nat
  | 0, _ => 0
  | f + 1, n => if n ≤ 1 then 0 else clog2F f ((n + 1) / 2) + 1

def clog2 (n : Nat) : Nat := clog2F n n

/-- Modelled from the spec (§4.2 palette rounding, §4.7 LZW min code size):
the size of the emitted palette, the next power of two in `[2, 256]`. -/
def palPow2 (n : Nat) : Nat := 2 ^ max 1 (clog2 n)

/-- Modelled from the spec (§4.2): the `log2-minus-1` color-table size
field. -/
def palSizeLog (n : Nat) : Nat := max 1 (clog2 n) - 1

/-- Modelled from the spec (§4.7): `max(2, ceil_log2(palette_length))`. -/
def litWidth (n : Nat) : Nat := max 2 (clog2 n)

/-- Modelled from the spec (§4.2): palette entries as R,G,B triplets,
zero-padded to the power-of-two size. -/
def paletteBytes (pal : List Color) : List Nat :=
  (pal ++ List.replicate (palPow2 pal.length - pal.length) (Color.mk 0 0 0 0)).flatMap
    (fun c => [c.r % 256, c.g % 256, c.b % 256])

/-- Palette contains a fully transparent entry (alpha 0). -/
def hasTransparent (pal : List Color) : Bool := pal.any (fun c => c.a == 0)

/-- Index of the first fully transparent palette entry. -/
def transparentIdx (pal : List Color) : Nat := pal.findIdx (fun c => c.a == 0)

/-- Modelled from the spec (§4.7 encode): the pixel-index stream handed to
the LZW encoder row by row. -/
def rasterPixels (p : PalImg) : List Nat :=
  (List.range p.rect.height).flatMap (fun y => (p.pix.drop (y * p.stride)).take p.rect.width)

/-- Modelled from the spec (§4.1 encode): split a byte stream into chunks
of at most 255 bytes (structural fuel: one unit per chunk, so the
stream's length always suffices). -/
def chunksF : Nat → List Nat → List (List Nat)
  | 0, _ => []
  | k + 1, l => if l = [] then [] else l.take 255 :: chunksF k (l.drop 255)

def chunk255 (l : List Nat) : List (List Nat) := chunksF l.length l

/-- Modelled from the spec (§4.1 encode): sub-block framing of a byte
stream — `[len][data]` per chunk, then a `0x00` terminator. -/
def framed (l : List Nat) : List Nat :=
  (chunk255 l).flatMap (fun c => c.length :: c) ++ [0x00]

/-- Modelled from the spec (§4.3): graphic-control extension bytes. -/
def gceBytes (disposal delay ti : Nat) (hasT : Bool) : List Nat :=
  [sExtension, eGraphicControl, 0x04,
   disposal * 4 % 256 + (if hasT then 1 else 0)] ++ u16 delay ++ [ti % 256, 0x00]

/-- Modelled from the spec (§4.7 encode): image descriptor, local color
table (a local table is emitted whenever the image's palette differs from
the global one), LZW minimum code size and the sub-block-framed LZW
raster.  Interlacing is never produced on encode. -/
def frameImageBytes (lzwE : Nat → List Nat → List Nat) (global : List Color) (p : PalImg) :
    List Nat :=
  let localPal : List Nat :=
    if p.palette == global then []
    else paletteBytes p.palette
  let packed : Nat :=
    if p.palette == global then 0
    else 0x80 + palSizeLog p.palette.length
  let lw := if p.palette == global then litWidth global.length else litWidth p.palette.length
  [sImageDescriptor] ++
    u16 p.rect.minX ++ u16 p.rect.minY ++ u16 p.rect.width ++ u16 p.rect.height ++
    [packed] ++ localPal ++ [lw] ++ framed (lzwE lw (rasterPixels p))

/-- Modelled from the spec (§4.3, §4.7 encode; the `WriteFrame` wrapper is
in the sources): a graphic-control extension when delay, disposal or a
transparent palette entry is present, then the image block. -/
def WriteFrame (lzwE : Nat → List Nat → List Nat) (global : List Color) (f : Frame) :
    Except String (List Nat) :=
  let p := f.image
  if p.rect.width > 0xffff || p.rect.height > 0xffff then
    .error "gif: image is too large to encode"
  else
    let hasT := hasTransparent p.palette
    let gce : List Nat :=
      if f.delayTime > 0 || f.disposalMethod ≠ 0 || hasT then
        gceBytes f.disposalMethod f.delayTime (transparentIdx p.palette) hasT
      else []
    .ok (gce ++ frameImageBytes lzwE global p)

/-- Modelled from the spec (§4.2 encode): signature, logical screen
descriptor and optional global color table.  The version is `"GIF87a"`
here because in the streams under verification the header is written
before any 89a feature is used. -/
def WriteHeader (cfg : Config) (backgroundIndex : Nat) : Except String (List Nat) :=
  if cfg.width > 0xffff || cfg.height > 0xffff then
    .error "gif: image is too large to encode"
  else
    let sig : List Nat := [0x47, 0x49, 0x46, 0x38, 0x37, 0x61]
    let packed : Nat :=
      if cfg.palette.isEmpty then 0x70
      else 0x80 + 0x70 + palSizeLog cfg.palette.length
    let pal : List Nat := if cfg.palette.isEmpty then [] else paletteBytes cfg.palette
    .ok (sig ++ u16 cfg.width ++ u16 cfg.height ++ [packed, backgroundIndex % 256, 0x00] ++ pal)

/-- `Encoder.WriteTrailer`. -/
def WriteTrailer : List Nat := [sTrailer]

/-! ## Decoder

The decoder is a function from a byte list to a result plus the remaining
bytes, threading the `decoder` struct's scratch fields as explicit state.
`NewDecoder` leaves every field at its Go zero value (in particular
`loopCount = 0`); the `Decode` convenience wrapper sets `loopCount = -1`
before its first `ReadBlock`. -/

structure DecState where
  delayTime : Nat
  disposalMethod : Nat
  transparentIndex : Nat
  hasTransparentIndex : Bool
  loopCount : Int
  globalPalette : List Color
deriving DecidableEq, Repr

/-- The zero-valued decoder state created by `NewDecoder`. -/
def DecState.init : DecState := ⟨0, 0, 0, false, 0, []⟩

inductive ReadResult where
  | block : Block → ReadResult
  | eof : ReadResult
  | fail : String → ReadResult
deriving DecidableEq, Repr

/-- `readFull`: take exactly `n` bytes or fail (a short read is an error,
never silently EOF). -/
def takeN (n : Nat) (l : List Nat) : Except String (List Nat × List Nat) :=
  if l.length < n then .error "unexpected EOF" else .ok (l.take n, l.drop n)

/-- `decoder.readStrings`: length-prefixed string sub-blocks up to the
`0x00` terminator.  Structural fuel (one unit per sub-block; each
sub-block consumes at least one byte, so `readStrings` supplies the input
length plus one). -/
def readStringsF : Nat → List Nat → Except String (List (List Nat) × List Nat)
  | 0, _ => .error "unexpected EOF"
  | _ + 1, [] => .error "unexpected EOF"
  | k + 1, n :: rest =>
    if n = 0 then .ok ([], rest)
    else if rest.length < n then .error "unexpected EOF"
    else
      match readStringsF k (rest.drop n) with
      | .ok (ss, r) => .ok (rest.take n :: ss, r)
      | .error e => .error e

def readStrings (l : List Nat) : Except String (List (List Nat) × List Nat) :=
  readStringsF (l.length + 1) l

/-- `decoder.readSubBlocks`: identical framing, collected as raw chunks. -/
def readSubBlocksF : Nat → List Nat → Except String (List (List Nat) × List Nat)
  | 0, _ => .error "unexpected EOF"
  | _ + 1, [] => .error "unexpected EOF"
  | k + 1, n :: rest =>
    if n = 0 then .ok ([], rest)
    else if rest.length < n then .error "unexpected EOF"
    else
      match readSubBlocksF k (rest.drop n) with
      | .ok (sbs, r) => .ok (rest.take n :: sbs, r)
      | .error e => .error e

def readSubBlocks (l : List Nat) : Except String (List (List Nat) × List Nat) :=
  readSubBlocksF (l.length + 1) l

/-- The image raster's sub-block framing, concatenated into one stream
(§4.1 decode). -/
def readLzwDataF : Nat → List Nat → Except String (List Nat × List Nat)
  | 0, _ => .error "unexpected EOF"
  | _ + 1, [] => .error "unexpected EOF"
  | k + 1, n :: rest =>
    if n = 0 then .ok ([], rest)
    else if rest.length < n then .error "unexpected EOF"
    else
      match readLzwDataF k (rest.drop n) with
      | .ok (bs, r) => .ok (rest.take n ++ bs, r)
      | .error e => .error e

def readLzwData (l : List Nat) : Except String (List Nat × List Nat) :=
  readLzwDataF (l.length + 1) l

/-- Modelled from the spec (§4.3 decode, `decoder.readGraphicControl` in the
unchanged Go 1.18 `reader.go`): six bytes
`[size=4][packed][delay u16 LE][transparent][term]` read into the pending
scratch state; nothing is surfaced to the caller. -/
def readGraphicControl (st : DecState) (l : List Nat) :
    Except String (DecState × List Nat) :=
  match takeN 6 l with
  | .error e => .error ("gif: reading graphic control: " ++ e)
  | .ok (b, rest) =>
    if b.getD 0 0 ≠ 4 then .error "gif: invalid graphic control extension block size"
    else
      let packed := b.getD 1 0
      .ok ({ st with
              delayTime := b.getD 2 0 + 256 * b.getD 3 0,
              disposalMethod := packed / 4 % 8,
              transparentIndex := b.getD 4 0,
              hasTransparentIndex := packed % 2 = 1 }, rest)

/-- `decoder.readPlainText`: the 13-byte field block (whose size byte must
be `0x0C`), the strings, the merge of the pending graphic-control scratch
into the result and the scratch reset. -/
def readPlainText (st : DecState) (l : List Nat) :
    Except String (PlainText × DecState × List Nat) :=
  match takeN 13 l with
  | .error e => .error ("gif: reading plain text extension: " ++ e)
  | .ok (b, rest) =>
    if b.getD 0 0 ≠ 0x0c then .error "gif: invalid plain text extension block size"
    else
      match readStrings rest with
      | .error e => .error ("gif: reading plain text extension: " ++ e)
      | .ok (ss, r) =>
        .ok (⟨b.getD 1 0 + 256 * b.getD 2 0, b.getD 3 0 + 256 * b.getD 4 0,
              b.getD 5 0 + 256 * b.getD 6 0, b.getD 7 0 + 256 * b.getD 8 0,
              b.getD 9 0, b.getD 10 0, b.getD 11 0, b.getD 12 0,
              ss, st.delayTime, st.disposalMethod⟩,
             { st with delayTime := 0, disposalMethod := 0, hasTransparentIndex := false },
             r)

/-- `decoder.readComment`. -/
def readComment (l : List Nat) : Except String (Comment × List Nat) :=
  match readStrings l with
  | .error e => .error ("gif: reading comment extension: " ++ e)
  | .ok (ss, r) => .ok (⟨ss⟩, r)

/-- `decoder.readApplication`: length-prefixed identifier; when it equals
`"NETSCAPE2.0"` the first sub-block is consumed and, if it is exactly
`[0x01][lo][hi]`, interpreted as the loop count; the remaining sub-blocks
are surfaced.  (When the first length byte is `0`, the extension terminator
itself is consumed as that first block and `readSubBlocks` continues past
it, exactly as the source does.) -/
def readApplication (st : DecState) (l : List Nat) :
    Except String (Block × DecState × List Nat) :=
  match l with
  | [] => .error "gif: reading application extension: unexpected EOF"
  | b :: rest =>
    match takeN b rest with
    | .error e => .error ("gif: reading application extension: " ++ e)
    | .ok (idb, r1) =>
      if idb = netscapeId then
        match r1 with
        | [] => .error "gif: reading application extension: unexpected EOF"
        | n :: r2 =>
          if r2.length < n then .error "gif: reading application extension: unexpected EOF"
          else
            let tmp := r2.take n
            let st' := if n = 3 ∧ tmp.getD 0 0 = 1 then
                { st with loopCount := Int.ofNat (tmp.getD 1 0 + 256 * tmp.getD 2 0) }
              else st
            match readSubBlocks (r2.drop n) with
            | .error e => .error ("gif: reading application extension: " ++ e)
            | .ok (sbs, r3) =>
              .ok (.applicationNetscape ⟨st'.loopCount, sbs⟩, st', r3)
      else
        match readSubBlocks r1 with
        | .error e => .error ("gif: reading application extension: " ++ e)
        | .ok (sbs, r2) => .ok (.unknownApplication ⟨idb, sbs⟩, st, r2)

/-- `decoder.readUnknownExtension`. -/
def readUnknownExtension (label : Nat) (l : List Nat) :
    Except String (UnknownExtension × List Nat) :=
  match readSubBlocks l with
  | .error e => .error ("gif: reading unknown extension: " ++ e)
  | .ok (sbs, r) => .ok (⟨label, sbs⟩, r)

/-- Modelled from the spec (§4.7 decode, §4.8; `decoder.readImageDescriptor`
in the unchanged Go 1.18 `reader.go`): descriptor, optional local color
table, LZW min code size, framed raster of exactly `width × height`
indices; the pending graphic-control scratch is merged into the frame and
cleared, and a pending transparent index makes the corresponding palette
entry fully transparent.  (Deinterlacing is omitted: the encoder under
verification never produces interlaced rasters and no claim exercises
them.) -/
def readImageDescriptor (lzwD : Nat → List Nat → List Nat) (st : DecState) (l : List Nat) :
    Except String (Frame × DecState × List Nat) :=
  match takeN 9 l with
  | .error e => .error ("gif: reading image descriptor: " ++ e)
  | .ok (b, r1) =>
    let left := b.getD 0 0 + 256 * b.getD 1 0
    let top := b.getD 2 0 + 256 * b.getD 3 0
    let w := b.getD 4 0 + 256 * b.getD 5 0
    let h := b.getD 6 0 + 256 * b.getD 7 0
    let packed := b.getD 8 0
    let palRes : Except String (List Color × List Nat) :=
      if packed / 128 % 2 = 1 then
        match takeN (3 * 2 ^ (packed % 8 + 1)) r1 with
        | .error e => .error ("gif: reading local color table: " ++ e)
        | .ok (pb, r2) =>
          .ok (((List.range (2 ^ (packed % 8 + 1))).map
            (fun i => Color.mk (pb.getD (3 * i) 0) (pb.getD (3 * i + 1) 0)
                        (pb.getD (3 * i + 2) 0) 255), r2))
      else .ok (st.globalPalette, r1)
    match palRes with
    | .error e => .error e
    | .ok (pal, r2) =>
      match r2 with
      | [] => .error "gif: reading image data: unexpected EOF"
      | lw :: r3 =>
        match readLzwData r3 with
        | .error e => .error ("gif: reading image data: " ++ e)
        | .ok (data, r4) =>
          let pixels := lzwD lw data
          if pixels.length ≠ w * h then .error "gif: wrong image data length"
          else
            let pal' := if st.hasTransparentIndex then
                pal.set st.transparentIndex (Color.mk 0 0 0 0)
              else pal
            .ok (⟨⟨⟨left, top, left + w, top + h⟩, w, pixels, pal'⟩,
                  st.delayTime, st.disposalMethod⟩,
                 { st with delayTime := 0, disposalMethod := 0, hasTransparentIndex := false },
                 r4)

/-- `decoder.readExtension_`: dispatch on the label byte; a graphic-control
extension returns no block (`none`). -/
def readExtension_ (lzwD : Nat → List Nat → List Nat) (st : DecState) (l : List Nat) :
    Except String (Option Block × DecState × List Nat) :=
  match l with
  | [] => .error "gif: reading extension: unexpected EOF"
  | label :: rest =>
    if label = eText then
      match readPlainText st rest with
      | .error e => .error e
      | .ok (pt, st', r) => .ok (some (.plainText pt), st', r)
    else if label = eGraphicControl then
      match readGraphicControl st rest with
      | .error e => .error e
      | .ok (st', r) => .ok (none, st', r)
    else if label = eComment then
      match readComment rest with
      | .error e => .error e
      | .ok (c, r) => .ok (some (.comment c), st, r)
    else if label = eApplication then
      match readApplication st rest with
      | .error e => .error e
      | .ok (b, st', r) => .ok (some b, st', r)
    else
      match readUnknownExtension label rest with
      | .error e => .error e
      | .ok (ue, r) => .ok (some (.unknownExtension ue), st, r)

/-- The loop of `Decoder.ReadBlock`, with explicit fuel (the loop repeats
only after a graphic-control extension, which consumes at least eight
bytes, so any fuel beyond the input length is equivalent). -/
def ReadBlockF (lzwD : Nat → List Nat → List Nat) :
    Nat → DecState → List Nat → ReadResult × DecState × List Nat
  | 0, st, l => (.fail "gif: reading block: fuel", st, l)
  | fuel + 1, st, l =>
    match l with
    | [] => (.fail "gif: reading block: EOF", st, [])
    | c :: rest =>
      if c = sExtension then
        match readExtension_ lzwD st rest with
        | .error e => (.fail e, st, rest)
        | .ok (some b, st', r) => (.block b, st', r)
        | .ok (none, st', r) => ReadBlockF lzwD fuel st' r
      else if c = sImageDescriptor then
        match readImageDescriptor lzwD st rest with
        | .error e => (.fail e, st, rest)
        | .ok (f, st', r) => (.block (.frame f), st', r)
      else if c = sTrailer then (.eof, st, rest)
      else (.fail "gif: unknown block type", st, rest)

/-- `Decoder.ReadBlock`. -/
def ReadBlock (lzwD : Nat → List Nat → List Nat) (st : DecState) (l : List Nat) :
    ReadResult × DecState × List Nat :=
  ReadBlockF lzwD (l.length + 1) st l

/-- Modelled from the spec (§4.2 decode): accept a `"GIF87a"` or `"GIF89a"`
signature, read the 7-byte logical screen descriptor and the optional
global color table. -/
def ReadHeader (st : DecState) (l : List Nat) :
    Except String (Header × DecState × List Nat) :=
  match takeN 6 l with
  | .error e => .error ("gif: reading header: " ++ e)
  | .ok (sig, r1) =>
    if sig ≠ [0x47, 0x49, 0x46, 0x38, 0x37, 0x61] ∧
       sig ≠ [0x47, 0x49, 0x46, 0x38, 0x39, 0x61] then
      .error "gif: can't recognize format"
    else
      match takeN 7 r1 with
      | .error e => .error ("gif: reading screen descriptor: " ++ e)
      | .ok (b, r2) =>
        let w := b.getD 0 0 + 256 * b.getD 1 0
        let h := b.getD 2 0 + 256 * b.getD 3 0
        let packed := b.getD 4 0
        let bg := b.getD 5 0
        if packed / 128 % 2 = 1 then
          match takeN (3 * 2 ^ (packed % 8 + 1)) r2 with
          | .error e => .error ("gif: reading global color table: " ++ e)
          | .ok (pb, r3) =>
            let pal := (List.range (2 ^ (packed % 8 + 1))).map
              (fun i => Color.mk (pb.getD (3 * i) 0) (pb.getD (3 * i + 1) 0)
                          (pb.getD (3 * i + 2) 0) 255)
            .ok (⟨sig, ⟨w, h, pal⟩, bg⟩, { st with globalPalette := pal }, r3)
        else
          .ok (⟨sig, ⟨w, h, []⟩, bg⟩, st, r2)

/-! ## Round-trip harness

The round-trip property encodes the stream
`[header, v, terminator-frame, trailer]` and decodes it again, as the
repository's block tests do (`doEncode`/`doDecode`). -/

/-- The trivial instance of the §6 LZW contract, used in concrete
evaluations: both directions are the identity on the byte stream. -/
def lzwId : Nat → List Nat → List Nat := fun _ s => s

/-- The terminator frame written by the test harness after the block under
test: 1×1, palette `[black, white]`, pixel 0, no delay, no disposal. -/
def termFrame : Frame :=
  ⟨⟨⟨0, 0, 1, 1⟩, 1, [0], [⟨0, 0, 0, 255⟩, ⟨255, 255, 255, 255⟩]⟩, 0, 0⟩

/-- Block dispatch over the encoder's per-kind write operations. -/
def WriteBlock (lzwE : Nat → List Nat → List Nat) (global : List Color) :
    Block → Except String (List Nat)
  | .frame f => WriteFrame lzwE global f
  | .plainText pt => WritePlainText pt
  | .comment c => WriteComment c
  | .applicationNetscape an => WriteApplicationNetscape an
  | .unknownApplication ua => WriteUnknownApplication ua
  | .unknownExtension ue => WriteUnknownExtension ue

/-- Encode `[header, v, terminator-frame, trailer]`. -/
def encodeStream (lzwE : Nat → List Nat → List Nat) (cfg : Config) (bg : Nat) (b : Block) :
    Except String (List Nat) :=
  match WriteHeader cfg bg with
  | .error e => .error e
  | .ok hb =>
    match WriteBlock lzwE cfg.palette b with
    | .error e => .error e
    | .ok bb =>
      match WriteFrame lzwE cfg.palette termFrame with
      | .error e => .error e
      | .ok fb => .ok (hb ++ bb ++ fb ++ WriteTrailer)

/-! ## Valid instances

The validity predicate used by the round-trip theorem: the spec's
invariants (§3) sharpened by exactly the conditions the code forces (see
the round-trip claim's amendment). -/

/-- A string the encoder accepts and the framing round-trips: non-empty
(an empty string's length byte is the sub-block terminator), at most 128
bytes (`validateString` rejects longer strings through its index bug) and
ASCII (§3 invariant). -/
def validStr (s : List Nat) : Bool :=
  1 ≤ s.length && s.length ≤ 128 && s.all (fun b => b ≤ 0x7f)

/-- Sub-blocks that frame reversibly: each non-empty and at most 255
bytes. -/
def validSubBlocks (sbs : List (List Nat)) : Bool :=
  sbs.all (fun sb => 1 ≤ sb.length && sb.length ≤ 255)

/-- A paletted image the image-block codec round-trips: 16-bit geometry,
non-degenerate, contiguous buffer, and an opaque power-of-two palette of
byte-ranged colors. -/
def validImage (p : PalImg) : Bool :=
  p.rect.minX ≤ 0xffff && p.rect.minY ≤ 0xffff &&
  1 ≤ p.rect.width && p.rect.width ≤ 0xffff &&
  1 ≤ p.rect.height && p.rect.height ≤ 0xffff &&
  p.stride = p.rect.width && p.pix.length = p.rect.width * p.rect.height &&
  palPow2 p.palette.length = p.palette.length && p.palette.length ≤ 256 &&
  p.palette.all (fun c => c.r ≤ 255 && c.g ≤ 255 && c.b ≤ 255 && c.a = 255)

/-- Valid block instances for the round-trip theorem. -/
def validBlock : Block → Bool
  | .frame f =>
    validImage f.image && f.delayTime ≤ 0xffff && f.disposalMethod ≤ 7
  | .plainText pt =>
    !pt.strings.isEmpty && pt.strings.all validStr &&
    pt.textGridLeftPosition ≤ 0xffff && pt.textGridTopPosition ≤ 0xffff &&
    pt.textGridWidth ≤ 0xffff && pt.textGridHeight ≤ 0xffff &&
    pt.characterCellWidth ≤ 0xff && pt.characterCellHeight ≤ 0xff &&
    pt.textForegroundColorIndex ≤ 0xff && pt.textBackgroundColorIndex ≤ 0xff &&
    pt.delayTime ≤ 0xffff && pt.disposalMethod ≤ 7
  | .comment c =>
    !c.strings.isEmpty && c.strings.all validStr
  | .applicationNetscape an =>
    0 ≤ an.loopCount && an.loopCount ≤ 0xffff && validSubBlocks an.subBlocks
  | .unknownApplication ua =>
    ua.identifier ≠ netscapeId && ua.identifier.length ≤ 128 &&
    ua.identifier.all (fun b => b ≤ 0x7f) && validSubBlocks ua.subBlocks
  | .unknownExtension ue =>
    ue.label ≤ 0xff && ue.label ≠ eText && ue.label ≠ eGraphicControl &&
    ue.label ≠ eComment && ue.label ≠ eApplication && validSubBlocks ue.subBlocks

/-- Modelled from the spec: the §3 validity of an `UnknownApplication` — an
11-character ASCII identifier and sub-blocks of length at most 255.  (The
spec's invariants place no further restriction on the identifier's value.) -/
def specValidUnknownApplication (ua : UnknownApplication) : Bool :=
  ua.identifier.length = 11 && ua.identifier.all (fun b => b ≤ 0x7f) &&
  ua.subBlocks.all (fun sb => sb.length ≤ 255)

/-- Decoding check used by the round-trip counterexample: the header parses,
after which the very next `ReadBlock` reports a hard failure (so no block
value, let alone one equal to the encoded block, is produced). -/
def decodesToFailure (bytes : List Nat) : Bool :=
  match ReadHeader DecState.init bytes with
  | .ok (_, st1, r1) =>
    match ReadBlock lzwId st1 r1 with
    | (.fail _, _, _) => true
    | _ => false
  | .error _ => false

/-! ## Theorems -/

set_option maxRecDepth 8000

/-- C3: the claim says a `Comment`/`PlainText` whose strings contain a byte
above `0x7F` is rejected with a non-ASCII validation error before any
byte is written.  The code instead accepts it: `validateString` compares
the iteration *index* with `unicode.MaxASCII` instead of the byte value
(the spec itself flags this as a likely bug and requires byte-value
checking), so `WriteComment`/`WritePlainText` on the one-byte string
`"\xff"` succeed and write the raw `0xFF` byte to the sink; meanwhile an
all-ASCII string of length 129 is spuriously rejected with the non-ASCII
error. -/
theorem validateString_index_bug :
    validateString [0xff] = .ok () ∧
    WriteComment ⟨[[0xff]]⟩ = .ok [0x21, 0xfe, 0x01, 0xff, 0x00] ∧
    WritePlainText ⟨0, 0, 0, 0, 0, 0, 0, 0, [[0xff]], 0, 0⟩ =
      .ok [0x21, 0x01, 0x0c, 0, 0, 0, 0, 0, 0, 0, 0, 0, 0, 0, 0, 0x01, 0xff, 0x00] ∧
    validateString (List.replicate 129 0x41) =
      .error "string must only contain ASCII characters" := by
  refine ⟨by decide, by decide, by decide, by decide⟩

/-- C6 counterexample: the claim says that after `ReadBlock` reports
end-of-stream on the trailer, every further call reports end-of-stream
again without consuming bytes.  On the stream
`[0x3B, 0x21, 0xFE, 0x01, 'a', 0x00]` the first call reports end-of-stream,
but the second call consumes the remaining five bytes and returns a
`Comment` block instead of end-of-stream. -/
theorem readBlock_after_trailer_continues :
    ReadBlock lzwId DecState.init [0x3b, 0x21, 0xfe, 0x01, 0x61, 0x00] =
      (.eof, DecState.init, [0x21, 0xfe, 0x01, 0x61, 0x00]) ∧
    ReadBlock lzwId DecState.init [0x21, 0xfe, 0x01, 0x61, 0x00] =
      (.block (.comment ⟨[[0x61]]⟩), DecState.init, []) := by
  refine ⟨by decide, by decide⟩

/-- C6 amended: reading the trailer byte `0x3B` reports end-of-stream,
consumes exactly that byte and leaves the decoder state unchanged — but no
terminal state is recorded: a subsequent `ReadBlock` processes the
remaining bytes afresh, reporting end-of-stream again only when the next
byte is again a trailer, and a read failure (not the end-of-stream
sentinel) when the source is exhausted. -/
theorem readBlock_trailer_stateless (lzwD : Nat → List Nat → List Nat)
    (st : DecState) (rest : List Nat) :
    ReadBlock lzwD st (sTrailer :: rest) = (.eof, st, rest) ∧
    ReadBlock lzwD st (sTrailer :: sTrailer :: rest) = (.eof, st, sTrailer :: rest) ∧
    ReadBlock lzwD st [] = (.fail "gif: reading block: EOF", st, []) := by
  refine ⟨?_, ?_, rfl⟩ <;> simp [ReadBlock, ReadBlockF, sTrailer, sExtension, sImageDescriptor]

/-- Under valid strings, `WritePlainText` succeeds with an optional
graphic-control prefix followed by the plain-text block. -/
theorem writePlainText_ok (pt : PlainText)
    (h : validateStrings pt.strings = .ok ()) :
    WritePlainText pt = .ok (
      (if pt.delayTime ≠ 0 ∨ pt.disposalMethod ≠ 0 then
        [sExtension, eGraphicControl, 0x04, pt.disposalMethod * 4 % 256] ++
          u16 pt.delayTime ++ [0x00, 0x00]
      else []) ++
      [sExtension, eText, 0x0c] ++
      u16 pt.textGridLeftPosition ++ u16 pt.textGridTopPosition ++
      u16 pt.textGridWidth ++ u16 pt.textGridHeight ++
      [pt.characterCellWidth % 256, pt.characterCellHeight % 256,
       pt.textForegroundColorIndex % 256, pt.textBackgroundColorIndex % 256] ++
      writeStrings pt.strings) := by
  simp only [WritePlainText, h]
  by_cases hd : pt.delayTime = 0 <;> by_cases hm : pt.disposalMethod = 0 <;>
    simp [hd, hm, Nat.pos_iff_ne_zero]

/-- C7: `WritePlainText` emits a graphic-control extension immediately
before the plain-text extension if and only if the delay or the disposal
method is non-zero; when both are zero no graphic-control bytes are
written and the output starts directly with the plain-text introducer. -/
theorem writePlainText_gce_iff (pt : PlainText)
    (h : validateStrings pt.strings = .ok ()) :
    WritePlainText pt = .ok (
      (if pt.delayTime ≠ 0 ∨ pt.disposalMethod ≠ 0 then
        [sExtension, eGraphicControl, 0x04, pt.disposalMethod * 4 % 256] ++
          u16 pt.delayTime ++ [0x00, 0x00]
      else []) ++
      [sExtension, eText, 0x0c] ++
      u16 pt.textGridLeftPosition ++ u16 pt.textGridTopPosition ++
      u16 pt.textGridWidth ++ u16 pt.textGridHeight ++
      [pt.characterCellWidth % 256, pt.characterCellHeight % 256,
       pt.textForegroundColorIndex % 256, pt.textBackgroundColorIndex % 256] ++
      writeStrings pt.strings) ∧
    (∀ out, WritePlainText pt = .ok out →
      (out.take 2 = [sExtension, eGraphicControl] ↔
        (pt.delayTime ≠ 0 ∨ pt.disposalMethod ≠ 0))) := by
  have h1 := writePlainText_ok pt h
  refine ⟨h1, fun out hout => ?_⟩
  rw [h1] at hout
  cases hout
  by_cases hd : pt.delayTime = 0 <;> by_cases hm : pt.disposalMethod = 0 <;>
    simp [hd, hm, eText, eGraphicControl]

/-- Witness for the plain-text graphic-control theorem at a concrete
instance with delay 9 and disposal 2. -/
theorem writePlainText_gce_iff_witness :
    ((WritePlainText ⟨1, 2, 3, 4, 5, 6, 7, 8, [[0x68]], 9, 2⟩).toOption.getD []).take 2 =
      [sExtension, eGraphicControl] := by
  have hthm := writePlainText_gce_iff ⟨1, 2, 3, 4, 5, 6, 7, 8, [[0x68]], 9, 2⟩ (by decide)
  rw [hthm.1]
  decide

/-- A successful `readExtension_` that surfaces no block is a
graphic-control extension; it consumes the label plus six payload bytes. -/
theorem readExtension_none_length (lzwD : Nat → List Nat → List Nat)
    (st : DecState) (l : List Nat) (st' : DecState) (r : List Nat)
    (h : readExtension_ lzwD st l = .ok (none, st', r)) :
    r.length + 7 ≤ l.length := by
  cases l with
  | nil => simp [readExtension_] at h
  | cons label rest =>
    simp only [readExtension_] at h
    by_cases h1 : label = eText
    · rw [if_pos h1] at h
      cases hm : readPlainText st rest with
      | error e => rw [hm] at h; cases h
      | ok v => rw [hm] at h; obtain ⟨pt, st2, r2⟩ := v; cases h
    · rw [if_neg h1] at h
      by_cases h2 : label = eGraphicControl
      · rw [if_pos h2] at h
        cases hm : readGraphicControl st rest with
        | error e => rw [hm] at h; cases h
        | ok v =>
          rw [hm] at h
          obtain ⟨st2, r2⟩ := v
          cases h
          simp only [readGraphicControl, takeN] at hm
          by_cases hlen : rest.length < 6
          · rw [if_pos hlen] at hm; cases hm
          · rw [if_neg hlen] at hm
            simp only [] at hm
            by_cases hb : (rest.take 6).getD 0 0 ≠ 4
            · rw [if_pos hb] at hm; cases hm
            · rw [if_neg hb] at hm
              cases hm
              simp only [List.length_drop, List.length_cons]
              omega
      · rw [if_neg h2] at h
        by_cases h3 : label = eComment
        · rw [if_pos h3] at h
          cases hm : readComment rest with
          | error e => rw [hm] at h; cases h
          | ok v => rw [hm] at h; obtain ⟨c, r2⟩ := v; cases h
        · rw [if_neg h3] at h
          by_cases h4 : label = eApplication
          · rw [if_pos h4] at h
            cases hm : readApplication st rest with
            | error e => rw [hm] at h; cases h
            | ok v => rw [hm] at h; obtain ⟨b, st2, r2⟩ := v; cases h
          · rw [if_neg h4] at h
            cases hm : readUnknownExtension label rest with
            | error e => rw [hm] at h; cases h
            | ok v => rw [hm] at h; obtain ⟨ue, r2⟩ := v; cases h

/-- `ReadBlockF` does not depend on the fuel once it exceeds the input
length. -/
theorem ReadBlockF_congr (lzwD : Nat → List Nat → List Nat) :
    ∀ (k : Nat) (l : List Nat), l.length ≤ k → ∀ (st : DecState) (f1 f2 : Nat),
      l.length < f1 → l.length < f2 →
      ReadBlockF lzwD f1 st l = ReadBlockF lzwD f2 st l := by
  intro k
  induction k with
  | zero =>
    intro l hl st f1 f2 h1 h2
    have hnil : l = [] := List.eq_nil_of_length_eq_zero (Nat.le_zero.mp hl)
    subst hnil
    obtain ⟨a, rfl⟩ := Nat.exists_eq_succ_of_ne_zero (Nat.pos_iff_ne_zero.mp h1)
    obtain ⟨b, rfl⟩ := Nat.exists_eq_succ_of_ne_zero (Nat.pos_iff_ne_zero.mp h2)
    rfl
  | succ k ih =>
    intro l hl st f1 f2 h1 h2
    obtain ⟨a, rfl⟩ := Nat.exists_eq_succ_of_ne_zero (by omega : f1 ≠ 0)
    obtain ⟨b, rfl⟩ := Nat.exists_eq_succ_of_ne_zero (by omega : f2 ≠ 0)
    cases l with
    | nil => rfl
    | cons c rest =>
      simp only [ReadBlockF]
      by_cases hc : c = sExtension
      · rw [if_pos hc, if_pos hc]
        cases hext : readExtension_ lzwD st rest with
        | error e => rfl
        | ok v =>
          obtain ⟨ob, st', r⟩ := v
          cases ob with
          | some b' => rfl
          | none =>
            have hlen := readExtension_none_length lzwD st rest st' r hext
            simp only [List.length_cons] at hl h1 h2
            exact ih r (by omega) st' a b (by omega) (by omega)
      · rw [if_neg hc, if_neg hc]

/-- `validateString` accepts exactly the strings of length at most 128:
the index/byte confusion means content is never inspected. -/
theorem validateString_ok_iff (s : List Nat) :
    validateString s = .ok () ↔ s.length ≤ 128 := by
  simp only [validateString]
  by_cases h1 : s.length > 0xff
  · rw [if_pos h1]
    simp only [reduceCtorEq, false_iff]
    omega
  · rw [if_neg h1]
    by_cases h2 : (List.range s.length).any (fun c => decide (c > 0x7f)) = true
    · rw [if_pos h2]
      simp only [reduceCtorEq, false_iff]
      rw [List.any_eq_true] at h2
      obtain ⟨c, hc, hgt⟩ := h2
      rw [List.mem_range] at hc
      simp only [decide_eq_true_eq] at hgt
      omega
    · rw [if_neg h2]
      simp only [true_iff]
      by_contra h3
      apply h2
      rw [List.any_eq_true]
      exact ⟨128, List.mem_range.mpr (by omega), by simp⟩

theorem validateEach_ok (ss : List (List Nat)) (h : ∀ s ∈ ss, s.length ≤ 128) :
    validateEach ss = .ok () := by
  induction ss with
  | nil => rfl
  | cons s ss ih =>
    simp only [validateEach]
    rw [(validateString_ok_iff s).mpr (h s (by simp))]
    exact ih (fun t ht => h t (by simp [ht]))

theorem validateStrings_ok (ss : List (List Nat)) (h0 : ss ≠ [])
    (h : ∀ s ∈ ss, s.length ≤ 128) : validateStrings ss = .ok () := by
  simp only [validateStrings]
  rw [if_neg (by simpa using h0)]
  exact validateEach_ok ss h

theorem validateSubBlocks_ok (sbs : List (List Nat)) (h : ∀ sb ∈ sbs, sb.length ≤ 255) :
    validateSubBlocks sbs = .ok () := by
  induction sbs with
  | nil => rfl
  | cons sb sbs ih =>
    simp only [validateSubBlocks]
    rw [if_neg (by have := h sb (by simp); omega)]
    exact ih (fun t ht => h t (by simp [ht]))

/-- Decoding the encoder's string framing recovers the strings. -/
theorem readStringsF_write : ∀ (ss : List (List Nat)) (rest : List Nat) (fuel : Nat),
    ss.length < fuel → (∀ s ∈ ss, 1 ≤ s.length ∧ s.length ≤ 255) →
    readStringsF fuel (writeStrings ss ++ rest) = .ok (ss, rest) := by
  intro ss
  induction ss with
  | nil =>
    intro rest fuel hf _
    obtain ⟨k, rfl⟩ := Nat.exists_eq_succ_of_ne_zero (by omega : fuel ≠ 0)
    simp [writeStrings, readStringsF]
  | cons s ss ih =>
    intro rest fuel hf hws
    obtain ⟨k, rfl⟩ := Nat.exists_eq_succ_of_ne_zero (by omega : fuel ≠ 0)
    have hs := hws s (by simp)
    have hmod : s.length % 256 = s.length := Nat.mod_eq_of_lt (by omega)
    have hshape : writeStrings (s :: ss) ++ rest =
        s.length % 256 :: (s ++ (writeStrings ss ++ rest)) := by
      simp [writeStrings, List.append_assoc]
    rw [hshape]
    simp only [readStringsF, hmod]
    rw [if_neg (by omega)]
    rw [if_neg (by simp only [List.length_append, Nat.not_lt]; omega)]
    have htake : (s ++ (writeStrings ss ++ rest)).take s.length = s := List.take_left s _
    have hdrop : (s ++ (writeStrings ss ++ rest)).drop s.length = writeStrings ss ++ rest :=
      List.drop_left s _
    rw [htake, hdrop, ih rest k (by simpa using hf) (fun t ht => hws t (by simp [ht]))]

theorem writeStrings_length (ss : List (List Nat)) :
    ss.length < (writeStrings ss).length := by
  induction ss with
  | nil => simp [writeStrings]
  | cons s ss ih =>
    simp only [writeStrings, List.flatMap_cons, List.append_assoc, List.length_append,
      List.length_cons] at ih ⊢
    omega

theorem readStrings_write (ss : List (List Nat)) (rest : List Nat)
    (hws : ∀ s ∈ ss, 1 ≤ s.length ∧ s.length ≤ 255) :
    readStrings (writeStrings ss ++ rest) = .ok (ss, rest) := by
  apply readStringsF_write ss rest _ _ hws
  have := writeStrings_length ss
  simp only [readStrings, List.length_append]
  omega

/-- Decoding the encoder's sub-block framing recovers the sub-blocks. -/
theorem readSubBlocksF_write : ∀ (sbs : List (List Nat)) (rest : List Nat) (fuel : Nat),
    sbs.length < fuel → (∀ sb ∈ sbs, 1 ≤ sb.length ∧ sb.length ≤ 255) →
    readSubBlocksF fuel (writeSubBlocks sbs ++ rest) = .ok (sbs, rest) := by
  intro sbs
  induction sbs with
  | nil =>
    intro rest fuel hf _
    obtain ⟨k, rfl⟩ := Nat.exists_eq_succ_of_ne_zero (by omega : fuel ≠ 0)
    simp [writeSubBlocks, readSubBlocksF]
  | cons sb sbs ih =>
    intro rest fuel hf hws
    obtain ⟨k, rfl⟩ := Nat.exists_eq_succ_of_ne_zero (by omega : fuel ≠ 0)
    have hs := hws sb (by simp)
    have hmod : sb.length % 256 = sb.length := Nat.mod_eq_of_lt (by omega)
    have hshape : writeSubBlocks (sb :: sbs) ++ rest =
        sb.length % 256 :: (sb ++ (writeSubBlocks sbs ++ rest)) := by
      simp [writeSubBlocks, List.append_assoc]
    rw [hshape]
    simp only [readSubBlocksF, hmod]
    rw [if_neg (by omega)]
    rw [if_neg (by simp only [List.length_append, Nat.not_lt]; omega)]
    rw [List.take_left sb _, List.drop_left sb _,
      ih rest k (by simpa using hf) (fun t ht => hws t (by simp [ht]))]

theorem writeSubBlocks_length (sbs : List (List Nat)) :
    sbs.length < (writeSubBlocks sbs).length := by
  induction sbs with
  | nil => simp [writeSubBlocks]
  | cons sb sbs ih =>
    simp only [writeSubBlocks, List.flatMap_cons, List.append_assoc, List.length_append,
      List.length_cons] at ih ⊢
    omega

theorem readSubBlocks_write (sbs : List (List Nat)) (rest : List Nat)
    (hws : ∀ sb ∈ sbs, 1 ≤ sb.length ∧ sb.length ≤ 255) :
    readSubBlocks (writeSubBlocks sbs ++ rest) = .ok (sbs, rest) := by
  apply readSubBlocksF_write sbs rest _ _ hws
  have := writeSubBlocks_length sbs
  simp only [readSubBlocks, List.length_append]
  omega

/-- The scratch update performed by a graphic-control extension. -/
theorem readBlock_gce_step (lzwD : Nat → List Nat → List Nat) (st : DecState)
    (packed d1 d2 ti : Nat) (rest : List Nat) :
    ReadBlock lzwD st
      ([sExtension, eGraphicControl, 0x04, packed, d1, d2, ti, 0x00] ++ rest) =
    ReadBlock lzwD
      { st with delayTime := d1 + 256 * d2, disposalMethod := packed / 4 % 8,
                transparentIndex := ti, hasTransparentIndex := packed % 2 = 1 } rest := by
  have h1 : ReadBlock lzwD st
      ([sExtension, eGraphicControl, 0x04, packed, d1, d2, ti, 0x00] ++ rest) =
    ReadBlockF lzwD (rest.length + 8)
      { st with delayTime := d1 + 256 * d2, disposalMethod := packed / 4 % 8,
                transparentIndex := ti, hasTransparentIndex := packed % 2 = 1 } rest := rfl
  rw [h1]
  apply ReadBlockF_congr lzwD rest.length rest (le_refl _) <;> omega

/-- One `ReadBlock` step on an extension introducer. -/
theorem readBlock_ext_step (lzwD : Nat → List Nat → List Nat) (st : DecState) (l : List Nat) :
    ReadBlock lzwD st (sExtension :: l) =
      (match readExtension_ lzwD st l with
       | .error e => (.fail e, st, l)
       | .ok (some b, st2, r2) => (.block b, st2, r2)
       | .ok (none, st2, r2) => ReadBlockF lzwD (l.length + 1) st2 r2) := rfl

theorem readExtension_text (lzwD : Nat → List Nat → List Nat) (st : DecState) (l : List Nat) :
    readExtension_ lzwD st (eText :: l) =
      match readPlainText st l with
      | .error e => .error e
      | .ok (pt, st2, r2) => .ok (some (.plainText pt), st2, r2) := rfl

theorem readExtension_comment (lzwD : Nat → List Nat → List Nat) (st : DecState) (l : List Nat) :
    readExtension_ lzwD st (eComment :: l) =
      match readComment l with
      | .error e => .error e
      | .ok (c, r) => .ok (some (.comment c), st, r) := rfl

theorem readExtension_application (lzwD : Nat → List Nat → List Nat) (st : DecState)
    (l : List Nat) :
    readExtension_ lzwD st (eApplication :: l) =
      match readApplication st l with
      | .error e => .error e
      | .ok (b, st2, r2) => .ok (some b, st2, r2) := rfl

theorem readExtension_unknownLabel (lzwD : Nat → List Nat → List Nat) (st : DecState)
    (label : Nat) (l : List Nat) (h1 : label ≠ eText) (h2 : label ≠ eGraphicControl)
    (h3 : label ≠ eComment) (h4 : label ≠ eApplication) :
    readExtension_ lzwD st (label :: l) =
      match readUnknownExtension label l with
      | .error e => .error e
      | .ok (ue, r) => .ok (some (.unknownExtension ue), st, r) := by
  simp only [readExtension_, if_neg h1, if_neg h2, if_neg h3, if_neg h4]

/-- One `ReadBlock` step on an image descriptor. -/
theorem readBlock_image_step (lzwD : Nat → List Nat → List Nat) (st : DecState) (l : List Nat) :
    ReadBlock lzwD st (sImageDescriptor :: l) =
      (match readImageDescriptor lzwD st l with
       | .error e => (.fail e, st, l)
       | .ok (f, st2, r2) => (.block (.frame f), st2, r2)) := rfl

/-- A decoded plain text carries the pending graphic-control scratch and
clears it. -/
theorem readPlainText_carries (st : DecState) (l : List Nat) (pt : PlainText)
    (st' : DecState) (r : List Nat) (h : readPlainText st l = .ok (pt, st', r)) :
    pt.delayTime = st.delayTime ∧ pt.disposalMethod = st.disposalMethod ∧
    st' = { st with delayTime := 0, disposalMethod := 0, hasTransparentIndex := false } := by
  simp only [readPlainText] at h
  split at h
  · cases h
  · split at h
    · cases h
    · split at h
      · cases h
      · cases h
        exact ⟨rfl, rfl, rfl⟩

/-- A decoded frame carries the pending graphic-control scratch and clears
it. -/
theorem readImageDescriptor_carries (lzwD : Nat → List Nat → List Nat) (st : DecState)
    (l : List Nat) (f : Frame) (st' : DecState) (r : List Nat)
    (h : readImageDescriptor lzwD st l = .ok (f, st', r)) :
    f.delayTime = st.delayTime ∧ f.disposalMethod = st.disposalMethod ∧
    st' = { st with delayTime := 0, disposalMethod := 0, hasTransparentIndex := false } := by
  simp only [readImageDescriptor] at h
  split at h
  · cases h
  · split at h
    · cases h
    · split at h
      · cases h
      · split at h
        · cases h
        · split at h
          · cases h
          · cases h
            exact ⟨rfl, rfl, rfl⟩

/-- C5: `ReadBlock` never returns a graphic-control extension as a block of
its own: reading one only updates the decoder's pending scratch state
(delay, disposal, transparent index) and the loop continues on the
remaining input; the next `Frame` or `PlainText` block decoded carries that
pending state in its delay/disposal fields, after which the scratch is
reset to its cleared values. -/
theorem readBlock_graphicControl_merged (lzwD : Nat → List Nat → List Nat) :
    (∀ (st : DecState) (packed d1 d2 ti : Nat) (rest : List Nat),
      ReadBlock lzwD st
          ([sExtension, eGraphicControl, 0x04, packed, d1, d2, ti, 0x00] ++ rest) =
        ReadBlock lzwD
          { st with delayTime := d1 + 256 * d2, disposalMethod := packed / 4 % 8,
                    transparentIndex := ti, hasTransparentIndex := packed % 2 = 1 } rest) ∧
    (∀ (st : DecState) (l : List Nat) (f : Frame) (st' : DecState) (r : List Nat),
      readImageDescriptor lzwD st l = .ok (f, st', r) →
      ReadBlock lzwD st (sImageDescriptor :: l) = (.block (.frame f), st', r) ∧
      f.delayTime = st.delayTime ∧ f.disposalMethod = st.disposalMethod ∧
      st' = { st with delayTime := 0, disposalMethod := 0, hasTransparentIndex := false }) ∧
    (∀ (st : DecState) (l : List Nat) (pt : PlainText) (st' : DecState) (r : List Nat),
      readPlainText st l = .ok (pt, st', r) →
      ReadBlock lzwD st (sExtension :: eText :: l) = (.block (.plainText pt), st', r) ∧
      pt.delayTime = st.delayTime ∧ pt.disposalMethod = st.disposalMethod ∧
      st' = { st with delayTime := 0, disposalMethod := 0, hasTransparentIndex := false }) := by
  refine ⟨readBlock_gce_step lzwD, ?_, ?_⟩
  · intro st l f st' r h
    have hc := readImageDescriptor_carries lzwD st l f st' r h
    refine ⟨?_, hc⟩
    rw [readBlock_image_step, h]
  · intro st l pt st' r h
    have hc := readPlainText_carries st l pt st' r h
    refine ⟨?_, hc⟩
    rw [readBlock_ext_step, readExtension_text, h]

/-- Witness for the graphic-control merge theorem: a concrete image
descriptor consumed with pending delay 9 and disposal 2. -/
theorem readBlock_graphicControl_merged_witness :
    ReadBlock lzwId ⟨9, 2, 0, false, 0, []⟩
        (sImageDescriptor ::
          [0, 0, 0, 0, 1, 0, 1, 0, 0x80, 10, 20, 30, 40, 50, 60, 2, 1, 0, 0]) =
      (.block (.frame ⟨⟨⟨0, 0, 1, 1⟩, 1, [0], [⟨10, 20, 30, 255⟩, ⟨40, 50, 60, 255⟩]⟩, 9, 2⟩),
       ⟨0, 0, 0, false, 0, []⟩, []) ∧
    (9 : Nat) = 9 ∧ (2 : Nat) = 2 ∧
    (⟨0, 0, 0, false, 0, []⟩ : DecState) = ⟨0, 0, 0, false, 0, []⟩ :=
  (readBlock_graphicControl_merged lzwId).2.1 ⟨9, 2, 0, false, 0, []⟩
    [0, 0, 0, 0, 1, 0, 1, 0, 0x80, 10, 20, 30, 40, 50, 60, 2, 1, 0, 0]
    ⟨⟨⟨0, 0, 1, 1⟩, 1, [0], [⟨10, 20, 30, 255⟩, ⟨40, 50, 60, 255⟩]⟩, 9, 2⟩
    ⟨0, 0, 0, false, 0, []⟩ [] (by decide)

theorem takeN_append (s t : List Nat) : takeN s.length (s ++ t) = .ok (s, t) := by
  simp only [takeN, List.length_append]
  rw [if_neg (by omega)]
  rw [List.take_left, List.drop_left]

/-- `readApplication` on a `NETSCAPE2.0` extension whose first sub-block is
arbitrary: the first sub-block is consumed, interpreted as a loop count
exactly when it is `[0x01][lo][hi]`, and the remaining sub-blocks are
surfaced; otherwise the decoder's current loop count is kept. -/
theorem readApplication_netscape (st : DecState) (tmp : List Nat)
    (sbs : List (List Nat)) (rest : List Nat)
    (h1 : 1 ≤ tmp.length) (h2 : tmp.length ≤ 255)
    (hsbs : ∀ sb ∈ sbs, 1 ≤ sb.length ∧ sb.length ≤ 255) :
    readApplication st
        (0x0b :: (netscapeId ++ tmp.length :: (tmp ++ (writeSubBlocks sbs ++ rest)))) =
      .ok (.applicationNetscape
            ⟨if tmp.length = 3 ∧ tmp.getD 0 0 = 1 then
                Int.ofNat (tmp.getD 1 0 + 256 * tmp.getD 2 0)
              else st.loopCount, sbs⟩,
           { st with loopCount := if tmp.length = 3 ∧ tmp.getD 0 0 = 1 then
                Int.ofNat (tmp.getD 1 0 + 256 * tmp.getD 2 0)
              else st.loopCount },
           rest) := by
  have hid : takeN 0x0b (netscapeId ++ tmp.length :: (tmp ++ (writeSubBlocks sbs ++ rest))) =
      .ok (netscapeId, tmp.length :: (tmp ++ (writeSubBlocks sbs ++ rest))) :=
    takeN_append netscapeId _
  simp only [readApplication, hid, if_true]
  rw [if_neg (by simp only [List.length_append, Nat.not_lt]; omega)]
  rw [List.take_left tmp _, List.drop_left tmp _, readSubBlocks_write sbs rest hsbs]
  by_cases hc : tmp.length = 3 ∧ tmp.getD 0 0 = 1
  · simp only [if_pos hc]
  · simp only [if_neg hc]

/-- C4 counterexample: the claim says that on a fresh decoder a
`NETSCAPE2.0` extension whose first sub-block is not `[0x01][u16]` yields
`LoopCount` at "its initial value of -1".  The decoder struct's zero value
gives `loopCount = 0` (only the `Decode` wrapper sets -1), so `ReadBlock`
driven directly — as the repository's block tests do — returns
`LoopCount = 0`. -/
theorem netscape_initial_loopCount_zero :
    ReadBlock lzwId DecState.init
        ([0x21, 0xff, 0x0b] ++ netscapeId ++ [0x03, 0x02, 0x00, 0x00, 0x00]) =
      (.block (.applicationNetscape ⟨0, []⟩), DecState.init, []) ∧
    (0 : Int) ≠ -1 := by
  refine ⟨by decide, by decide⟩

/-- C4 amended: when `ReadBlock` reads a `NETSCAPE2.0` application
extension, the first sub-block is consumed and interpreted as
`[0x01][loop-count u16 LE]` if and only if its length is exactly 3 and its
first byte is `0x01`; otherwise the returned `ApplicationNetscape` still
carries the identifier's recognition but its `LoopCount` remains at the
decoder's current loop-count state — `-1` only when decoding started via
`Decode` (which initializes it to -1); a freshly constructed decoder driven
directly through `ReadBlock` starts at 0. -/
theorem readBlock_netscape_loopCount (lzwD : Nat → List Nat → List Nat)
    (st : DecState) (tmp : List Nat) (sbs : List (List Nat)) (rest : List Nat)
    (h1 : 1 ≤ tmp.length) (h2 : tmp.length ≤ 255)
    (hsbs : ∀ sb ∈ sbs, 1 ≤ sb.length ∧ sb.length ≤ 255) :
    ReadBlock lzwD st
        (sExtension :: eApplication ::
          0x0b :: (netscapeId ++ tmp.length :: (tmp ++ (writeSubBlocks sbs ++ rest)))) =
      (.block (.applicationNetscape
          ⟨if tmp.length = 3 ∧ tmp.getD 0 0 = 1 then
              Int.ofNat (tmp.getD 1 0 + 256 * tmp.getD 2 0)
            else st.loopCount, sbs⟩),
       { st with loopCount := if tmp.length = 3 ∧ tmp.getD 0 0 = 1 then
            Int.ofNat (tmp.getD 1 0 + 256 * tmp.getD 2 0)
          else st.loopCount },
       rest) := by
  rw [readBlock_ext_step, readExtension_application,
    readApplication_netscape st tmp sbs rest h1 h2 hsbs]

/-- Witness for the netscape loop-count theorem: a conforming loop
sub-block `[1, 13, 0]` sets the loop count to 13. -/
theorem readBlock_netscape_loopCount_witness :
    ReadBlock lzwId DecState.init
        (sExtension :: eApplication ::
          0x0b :: (netscapeId ++ [1, 13, 0].length ::
            ([1, 13, 0] ++ (writeSubBlocks [[5]] ++ [])))) =
      (.block (.applicationNetscape
          ⟨if ([1, 13, 0] : List Nat).length = 3 ∧ ([1, 13, 0] : List Nat).getD 0 0 = 1 then
              Int.ofNat (([1, 13, 0] : List Nat).getD 1 0 + 256 * ([1, 13, 0] : List Nat).getD 2 0)
            else DecState.init.loopCount, [[5]]⟩),
       { DecState.init with
          loopCount := if ([1, 13, 0] : List Nat).length = 3 ∧ ([1, 13, 0] : List Nat).getD 0 0 = 1 then
              Int.ofNat (([1, 13, 0] : List Nat).getD 1 0 + 256 * ([1, 13, 0] : List Nat).getD 2 0)
            else DecState.init.loopCount },
       []) :=
  readBlock_netscape_loopCount lzwId DecState.init [1, 13, 0] [[5]] []
    (by decide) (by decide) (by decide)

/-! ### Round-trip support lemmas -/

theorem u16_decode (a : Nat) (ha : a ≤ 0xffff) :
    a % 256 + 256 * (a / 256 % 256) = a := by omega

theorem u16i_decode (lc : Int) (h0 : 0 ≤ lc) (h1 : lc ≤ 0xffff) :
    Int.ofNat ((u16i lc).getD 0 0 + 256 * (u16i lc).getD 1 0) = lc := by
  simp only [u16i, List.getD_cons_zero, List.getD_cons_succ]
  have h2 : lc % 65536 = lc := Int.emod_eq_of_lt h0 (by omega)
  rw [h2]
  have h3 : lc.toNat % 256 + 256 * (lc.toNat / 256) = lc.toNat := by omega
  rw [h3]
  simpa using Int.toNat_of_nonneg h0

theorem takeN_eq (n : Nat) (s t : List Nat) (hn : s.length = n) :
    takeN n (s ++ t) = .ok (s, t) := by
  subst hn
  exact takeN_append s t

/-- An all-opaque palette has no transparent entry. -/
theorem hasTransparent_opaque (pal : List Color)
    (hp : pal.all (fun c => c.r ≤ 255 && c.g ≤ 255 && c.b ≤ 255 && c.a = 255) = true) :
    hasTransparent pal = false := by
  simp only [hasTransparent, List.any_eq_false]
  intro c hc
  simp only [List.all_eq_true] at hp
  have := hp c hc
  simp only [Bool.and_eq_true, decide_eq_true_eq, beq_iff_eq] at this ⊢
  omega

/-- Without padding (power-of-two palette), the palette bytes are the
plain R,G,B flattening. -/
theorem paletteBytes_pow2 (pal : List Color) (hp : palPow2 pal.length = pal.length) :
    paletteBytes pal = pal.flatMap (fun c => [c.r % 256, c.g % 256, c.b % 256]) := by
  simp only [paletteBytes, hp, Nat.sub_self, List.replicate_zero, List.append_nil]

theorem palFlat_length (pal : List Color) :
    (pal.flatMap (fun c => [c.r % 256, c.g % 256, c.b % 256])).length = 3 * pal.length := by
  induction pal with
  | nil => rfl
  | cons c pal ih =>
    simp only [List.flatMap_cons, List.length_append, List.length_cons, List.length_nil, ih,
      List.length_cons]
    omega

/-- The R,G,B flattening read back at index triple `3i`. -/
theorem palFlat_getD : ∀ (pal : List Color) (i : Nat), i < pal.length → ∀ (t : List Nat),
    ((pal.flatMap (fun c => [c.r % 256, c.g % 256, c.b % 256]) ++ t).getD (3 * i) 0 =
      (pal.getD i ⟨0, 0, 0, 0⟩).r % 256) ∧
    ((pal.flatMap (fun c => [c.r % 256, c.g % 256, c.b % 256]) ++ t).getD (3 * i + 1) 0 =
      (pal.getD i ⟨0, 0, 0, 0⟩).g % 256) ∧
    ((pal.flatMap (fun c => [c.r % 256, c.g % 256, c.b % 256]) ++ t).getD (3 * i + 2) 0 =
      (pal.getD i ⟨0, 0, 0, 0⟩).b % 256) := by
  intro pal
  induction pal with
  | nil => intro i hi; simp at hi
  | cons c pal ih =>
    intro i hi t
    cases i with
    | zero =>
      simp [List.flatMap_cons, List.cons_append, List.getD_cons_zero, List.getD_cons_succ]
    | succ i =>
      have h3 : 3 * (i + 1) = 3 * i + 1 + 1 + 1 := by ring
      have h4 : 3 * (i + 1) + 1 = (3 * i + 1) + 1 + 1 + 1 := by ring
      have h5 : 3 * (i + 1) + 2 = (3 * i + 2) + 1 + 1 + 1 := by ring
      simp only [List.flatMap_cons, List.cons_append, h3, h4, h5, List.getD_cons_succ,
        List.length_cons] at *
      exact ih i (by omega) t

/-- Reconstructing colors from the R,G,B flattening recovers an
all-opaque, byte-ranged palette. -/
theorem palFlat_decode (pal : List Color)
    (hp : pal.all (fun c => c.r ≤ 255 && c.g ≤ 255 && c.b ≤ 255 && c.a = 255) = true)
    (t : List Nat) :
    (List.range pal.length).map (fun i =>
      Color.mk ((pal.flatMap (fun c => [c.r % 256, c.g % 256, c.b % 256]) ++ t).getD (3 * i) 0)
        ((pal.flatMap (fun c => [c.r % 256, c.g % 256, c.b % 256]) ++ t).getD (3 * i + 1) 0)
        ((pal.flatMap (fun c => [c.r % 256, c.g % 256, c.b % 256]) ++ t).getD (3 * i + 2) 0)
        255) = pal := by
  apply List.ext_getElem
  · simp
  · intro i h1 h2
    simp only [List.getElem_map, List.getElem_range]
    have hi : i < pal.length := by simpa using h2
    have hgd := palFlat_getD pal i hi t
    have hmem : pal.getD i ⟨0, 0, 0, 0⟩ = pal[i] := List.getD_eq_getElem pal _ hi
    simp only [List.all_eq_true] at hp
    have hc := hp pal[i] (List.getElem_mem h2)
    simp only [Bool.and_eq_true, decide_eq_true_eq] at hc
    obtain ⟨⟨⟨hr, hg⟩, hb⟩, ha⟩ := hc
    rw [hgd.1, hgd.2.1, hgd.2.2, hmem]
    have hmk : ∀ c : Color, c.r ≤ 255 → c.g ≤ 255 → c.b ≤ 255 → c.a = 255 →
        Color.mk (c.r % 256) (c.g % 256) (c.b % 256) 255 = c := by
      intro c h1 h2 h3 h4
      obtain ⟨cr, cg, cb, ca⟩ := c
      simp only [Color.mk.injEq] at h4 ⊢
      simp only [] at h1 h2 h3
      exact ⟨by omega, by omega, by omega, by omega⟩
    exact hmk pal[i] hr hg hb ha

/-- Row-by-row traversal of a contiguous buffer is the identity. -/
theorem flatMap_rows : ∀ (hgt wid : Nat) (l : List Nat), l.length = wid * hgt →
    (List.range hgt).flatMap (fun y => (l.drop (y * wid)).take wid) = l := by
  intro hgt
  induction hgt with
  | zero =>
    intro wid l hl
    simp only [Nat.mul_zero, List.length_eq_zero] at hl
    simp [hl]
  | succ hgt ih =>
    intro wid l hl
    rw [List.range_succ_eq_map]
    simp only [List.flatMap_cons, Nat.zero_mul, List.drop_zero, List.flatMap_map]
    have hstep : ∀ y : Nat, ((l.drop ((y + 1) * wid)).take wid) =
        (((l.drop wid).drop (y * wid)).take wid) := by
      intro y
      rw [List.drop_drop]
      congr 2
      ring
    simp only [hstep]
    rw [ih wid (l.drop wid) (by simp only [List.length_drop, hl]; ring_nf; omega)]
    exact List.take_append_drop wid l

/-- `rasterPixels` on a contiguous image is the raw pixel buffer. -/
theorem rasterPixels_contiguous (p : PalImg) (hs : p.stride = p.rect.width)
    (hl : p.pix.length = p.rect.width * p.rect.height) :
    rasterPixels p = p.pix := by
  rw [rasterPixels, hs]
  exact flatMap_rows p.rect.height p.rect.width p.pix (by rw [hl])

theorem chunksF_nil (f : Nat) : chunksF f [] = [] := by
  cases f <;> rfl

/-- Total data length is bounded by the framed bytes. -/
theorem chunksF_flat_length : ∀ (k : Nat) (l : List Nat), l.length ≤ k →
    ∀ (f : Nat), l.length ≤ 255 * f →
    l.length ≤ ((chunksF f l).flatMap (fun c => c.length :: c)).length := by
  intro k
  induction k with
  | zero =>
    intro l hl f _
    have : l = [] := List.eq_nil_of_length_eq_zero (Nat.le_zero.mp hl)
    simp [this, chunksF_nil]
  | succ k ih =>
    intro l hl f hb
    by_cases hnil : l = []
    · simp [hnil, chunksF_nil]
    · have hlen : 1 ≤ l.length := by
        cases l with
        | nil => exact absurd rfl hnil
        | cons a t => simp
      obtain ⟨f', rfl⟩ := Nat.exists_eq_succ_of_ne_zero (by omega : f ≠ 0)
      simp only [chunksF, if_neg hnil, List.flatMap_cons, List.length_append,
        List.length_cons, List.length_take]
      have := ih (l.drop 255) (by simp only [List.length_drop]; omega) f'
        (by simp only [List.length_drop]; omega)
      simp only [List.length_drop] at this
      omega

/-- Deframing the chunked byte stream recovers it. -/
theorem readLzwDataF_chunks : ∀ (k : Nat) (l : List Nat), l.length ≤ k →
    ∀ (f : Nat), l.length ≤ 255 * f → ∀ (rest : List Nat) (fuel : Nat), l.length < fuel →
    readLzwDataF fuel
        (((chunksF f l).flatMap (fun c => c.length :: c)) ++ 0x00 :: rest) =
      .ok (l, rest) := by
  intro k
  induction k with
  | zero =>
    intro l hl f _ rest fuel hfuel
    have h0 : l = [] := List.eq_nil_of_length_eq_zero (Nat.le_zero.mp hl)
    subst h0
    obtain ⟨fu, rfl⟩ := Nat.exists_eq_succ_of_ne_zero (by omega : fuel ≠ 0)
    simp [chunksF_nil, readLzwDataF]
  | succ k ih =>
    intro l hl f hb rest fuel hfuel
    by_cases hnil : l = []
    · subst hnil
      obtain ⟨fu, rfl⟩ := Nat.exists_eq_succ_of_ne_zero (by omega : fuel ≠ 0)
      simp [chunksF_nil, readLzwDataF]
    · have hlen : 1 ≤ l.length := by
        cases l with
        | nil => exact absurd rfl hnil
        | cons a t => simp
      obtain ⟨f', rfl⟩ := Nat.exists_eq_succ_of_ne_zero (by omega : f ≠ 0)
      obtain ⟨fu, rfl⟩ := Nat.exists_eq_succ_of_ne_zero (by omega : fuel ≠ 0)
      simp only [chunksF, if_neg hnil, List.flatMap_cons, List.cons_append, List.append_assoc,
        readLzwDataF]
      rw [if_neg (by simp only [List.length_take]; omega)]
      rw [if_neg (by simp only [List.length_append, List.length_take, Nat.not_lt,
        List.length_cons]; omega)]
      have htk : (l.take 255 ++
          ((chunksF f' (l.drop 255)).flatMap (fun c => c.length :: c) ++ 0x00 :: rest)).take
            (l.take 255).length = l.take 255 := List.take_left _ _
      have hdr : (l.take 255 ++
          ((chunksF f' (l.drop 255)).flatMap (fun c => c.length :: c) ++ 0x00 :: rest)).drop
            (l.take 255).length =
          (chunksF f' (l.drop 255)).flatMap (fun c => c.length :: c) ++ 0x00 :: rest :=
        List.drop_left _ _
      rw [htk, hdr]
      rw [ih (l.drop 255) (by simp only [List.length_drop]; omega) f'
        (by simp only [List.length_drop]; omega) rest fu
        (by simp only [List.length_drop]; omega)]
      simp only [List.take_append_drop]

/-- Deframing `framed l` recovers the byte stream `l`. -/
theorem readLzwData_framed (l rest : List Nat) :
    readLzwData (framed l ++ rest) = .ok (l, rest) := by
  have hshape : framed l ++ rest =
      ((chunksF l.length l).flatMap (fun c => c.length :: c)) ++ 0x00 :: rest := by
    simp [framed, chunk255, List.append_assoc]
  rw [readLzwData, hshape]
  apply readLzwDataF_chunks l.length l (le_refl _) l.length (by omega) rest
  have := chunksF_flat_length l.length l (le_refl _) l.length (by omega)
  simp only [List.length_append, List.length_cons]
  omega

/-- Decoding the comment block bytes recovers the comment without touching
the decoder state. -/
theorem readBlock_commentBytes (lzwD : Nat → List Nat → List Nat) (st : DecState)
    (ss : List (List Nat)) (rest : List Nat)
    (hss : ∀ s ∈ ss, 1 ≤ s.length ∧ s.length ≤ 255) :
    ReadBlock lzwD st (sExtension :: eComment :: (writeStrings ss ++ rest)) =
      (.block (.comment ⟨ss⟩), st, rest) := by
  rw [readBlock_ext_step, readExtension_comment]
  simp only [readComment, readStrings_write ss rest hss]

/-- Decoding the plain-text block body merges the pending scratch and
recovers the fields. -/
theorem readPlainText_bytes (st : DecState) (g1 g2 g3 g4 c1 c2 fg bg : Nat)
    (ss : List (List Nat)) (rest : List Nat)
    (hg1 : g1 ≤ 0xffff) (hg2 : g2 ≤ 0xffff) (hg3 : g3 ≤ 0xffff) (hg4 : g4 ≤ 0xffff)
    (hc1 : c1 ≤ 0xff) (hc2 : c2 ≤ 0xff) (hfg : fg ≤ 0xff) (hbg : bg ≤ 0xff)
    (hss : ∀ s ∈ ss, 1 ≤ s.length ∧ s.length ≤ 255) :
    readPlainText st
        (0x0c :: (u16 g1 ++ (u16 g2 ++ (u16 g3 ++ (u16 g4 ++
          (c1 % 256 :: c2 % 256 :: fg % 256 :: bg % 256 :: (writeStrings ss ++ rest))))))) =
      .ok (⟨g1, g2, g3, g4, c1, c2, fg, bg, ss, st.delayTime, st.disposalMethod⟩,
           { st with delayTime := 0, disposalMethod := 0, hasTransparentIndex := false },
           rest) := by
  have htk : takeN 13 (0x0c :: (u16 g1 ++ (u16 g2 ++ (u16 g3 ++ (u16 g4 ++
        (c1 % 256 :: c2 % 256 :: fg % 256 :: bg % 256 :: (writeStrings ss ++ rest))))))) =
      .ok ([0x0c, g1 % 256, g1 / 256 % 256, g2 % 256, g2 / 256 % 256, g3 % 256,
            g3 / 256 % 256, g4 % 256, g4 / 256 % 256, c1 % 256, c2 % 256, fg % 256,
            bg % 256], writeStrings ss ++ rest) := rfl
  simp only [readPlainText, htk]
  rw [if_neg (by simp)]
  rw [readStrings_write ss rest hss]
  simp only [List.getD_cons_zero, List.getD_cons_succ]
  rw [u16_decode g1 hg1, u16_decode g2 hg2, u16_decode g3 hg3, u16_decode g4 hg4,
    Nat.mod_eq_of_lt (show c1 < 256 by omega), Nat.mod_eq_of_lt (show c2 < 256 by omega),
    Nat.mod_eq_of_lt (show fg < 256 by omega), Nat.mod_eq_of_lt (show bg < 256 by omega)]

/-- The graphic-control step in the shape the encoder produces. -/
theorem readBlock_gce_norm (lzwD : Nat → List Nat → List Nat) (st : DecState)
    (packed d ti : Nat) (rest : List Nat) :
    ReadBlock lzwD st
        (sExtension :: eGraphicControl :: 0x04 :: packed :: (u16 d ++ (ti :: 0x00 :: rest))) =
      ReadBlock lzwD
        { st with delayTime := d % 256 + 256 * (d / 256 % 256),
                  disposalMethod := packed / 4 % 8, transparentIndex := ti,
                  hasTransparentIndex := packed % 2 = 1 } rest := by
  have hshape :
      sExtension :: eGraphicControl :: 0x04 :: packed :: (u16 d ++ (ti :: 0x00 :: rest)) =
      [sExtension, eGraphicControl, 0x04, packed, d % 256, d / 256 % 256, ti, 0x00] ++ rest := by
    simp [u16]
  rw [hshape, readBlock_gce_step]

/-- Full plain-text round trip through `ReadBlock` from a scratch-clean
decoder state. -/
theorem writePlainText_roundtrip (lzwD : Nat → List Nat → List Nat) (st : DecState)
    (pt : PlainText) (hv : validBlock (.plainText pt) = true)
    (h0 : st.delayTime = 0) (h1 : st.disposalMethod = 0)
    (h2 : st.hasTransparentIndex = false) (rest : List Nat) :
    ∃ out st', WritePlainText pt = .ok out ∧
      ReadBlock lzwD st (out ++ rest) = (.block (.plainText pt), st', rest) ∧
      st'.delayTime = 0 ∧ st'.disposalMethod = 0 ∧ st'.hasTransparentIndex = false ∧
      st'.loopCount = st.loopCount ∧ st'.globalPalette = st.globalPalette := by
  obtain ⟨g1, g2, g3, g4, c1, c2, fgi, bgi, ss, dt, dm⟩ := pt
  simp only [validBlock, Bool.and_eq_true, decide_eq_true_eq, Bool.not_eq_true'] at hv
  obtain ⟨⟨⟨⟨⟨⟨⟨⟨⟨⟨⟨hne, hall⟩, hg1⟩, hg2⟩, hg3⟩, hg4⟩, hc1⟩, hc2⟩, hfg⟩, hbg⟩, hdel⟩,
    hdisp⟩ := hv
  have hss : ∀ s ∈ ss, 1 ≤ s.length ∧ s.length ≤ 255 := by
    intro s hs
    rw [List.all_eq_true] at hall
    have := hall s hs
    simp only [validStr, Bool.and_eq_true, decide_eq_true_eq] at this
    omega
  have hvs : validateStrings ss = .ok () := by
    apply validateStrings_ok _ (by intro h; rw [h] at hne; simp at hne)
    intro s hs
    rw [List.all_eq_true] at hall
    have := hall s hs
    simp only [validStr, Bool.and_eq_true, decide_eq_true_eq] at this
    omega
  have hw := writePlainText_ok ⟨g1, g2, g3, g4, c1, c2, fgi, bgi, ss, dt, dm⟩ hvs
  simp only [] at hw
  by_cases hc : dt ≠ 0 ∨ dm ≠ 0
  · rw [if_pos hc] at hw
    refine ⟨_, ⟨0, 0, 0, false, st.loopCount, st.globalPalette⟩, hw, ?_, rfl, rfl, rfl, rfl, rfl⟩
    simp only [List.append_assoc, List.cons_append, List.nil_append]
    rw [readBlock_gce_norm]
    rw [readBlock_ext_step, readExtension_text]
    rw [readPlainText_bytes _ g1 g2 g3 g4 c1 c2 fgi bgi ss rest
      hg1 hg2 hg3 hg4 hc1 hc2 hfg hbg hss]
    rw [u16_decode dt hdel]
    have hdm : dm * 4 % 256 / 4 % 8 = dm := by omega
    rw [hdm]
  · push_neg at hc
    obtain ⟨hcd, hcm⟩ := hc
    subst hcd
    subst hcm
    rw [if_neg (by omega)] at hw
    refine ⟨_, ⟨0, 0, st.transparentIndex, false, st.loopCount, st.globalPalette⟩, hw, ?_,
      rfl, rfl, rfl, rfl, rfl⟩
    simp only [List.append_assoc, List.cons_append, List.nil_append]
    rw [readBlock_ext_step, readExtension_text]
    rw [readPlainText_bytes st g1 g2 g3 g4 c1 c2 fgi bgi ss rest
      hg1 hg2 hg3 hg4 hc1 hc2 hfg hbg hss]
    rw [h0, h1]

/-- Comment round trip through `ReadBlock`. -/
theorem writeComment_roundtrip (lzwD : Nat → List Nat → List Nat) (st : DecState)
    (c : Comment) (hv : validBlock (.comment c) = true) (rest : List Nat) :
    ∃ out, WriteComment c = .ok out ∧
      ReadBlock lzwD st (out ++ rest) = (.block (.comment c), st, rest) := by
  obtain ⟨ss⟩ := c
  simp only [validBlock, Bool.and_eq_true, Bool.not_eq_true'] at hv
  obtain ⟨hne, hall⟩ := hv
  rw [List.all_eq_true] at hall
  have hss : ∀ s ∈ ss, 1 ≤ s.length ∧ s.length ≤ 255 := by
    intro s hs
    have := hall s hs
    simp only [validStr, Bool.and_eq_true, decide_eq_true_eq] at this
    omega
  have hvs : validateStrings ss = .ok () := by
    apply validateStrings_ok _ (by intro h; rw [h] at hne; simp at hne)
    intro s hs
    have := hall s hs
    simp only [validStr, Bool.and_eq_true, decide_eq_true_eq] at this
    omega
  have hw : WriteComment ⟨ss⟩ = .ok ([sExtension, eComment] ++ writeStrings ss) := by
    simp only [WriteComment, hvs]
  refine ⟨_, hw, ?_⟩
  simp only [List.append_assoc, List.cons_append, List.nil_append]
  exact readBlock_commentBytes lzwD st ss rest hss

/-- `readApplication` on a non-netscape identifier. -/
theorem readApplication_unknownId (st : DecState) (id : List Nat) (sbs : List (List Nat))
    (rest : List Nat) (hne : id ≠ netscapeId)
    (hsbs : ∀ sb ∈ sbs, 1 ≤ sb.length ∧ sb.length ≤ 255) :
    readApplication st (id.length :: (id ++ (writeSubBlocks sbs ++ rest))) =
      .ok (.unknownApplication ⟨id, sbs⟩, st, rest) := by
  simp only [readApplication, takeN_append, if_neg hne,
    readSubBlocks_write sbs rest hsbs]

/-- Unknown-application round trip through `ReadBlock`. -/
theorem writeUnknownApplication_roundtrip (lzwD : Nat → List Nat → List Nat) (st : DecState)
    (ua : UnknownApplication) (hv : validBlock (.unknownApplication ua) = true)
    (rest : List Nat) :
    ∃ out, WriteUnknownApplication ua = .ok out ∧
      ReadBlock lzwD st (out ++ rest) = (.block (.unknownApplication ua), st, rest) := by
  obtain ⟨id, sbs⟩ := ua
  simp only [validBlock, Bool.and_eq_true, decide_eq_true_eq] at hv
  obtain ⟨⟨⟨hne, hlen⟩, _⟩, hsb⟩ := hv
  have hsbs : ∀ sb ∈ sbs, 1 ≤ sb.length ∧ sb.length ≤ 255 := by
    intro sb hs
    simp only [validSubBlocks, List.all_eq_true] at hsb
    have := hsb sb hs
    simp only [Bool.and_eq_true, decide_eq_true_eq] at this
    omega
  have hid : validateString id = .ok () := (validateString_ok_iff id).mpr hlen
  have hsbv : validateSubBlocks sbs = .ok () :=
    validateSubBlocks_ok sbs (fun sb h => (hsbs sb h).2)
  have hw : WriteUnknownApplication ⟨id, sbs⟩ =
      .ok ([sExtension, eApplication, id.length % 256] ++ id ++ writeSubBlocks sbs) := by
    simp only [WriteUnknownApplication, hid, hsbv]
  refine ⟨_, hw, ?_⟩
  simp only [List.append_assoc, List.cons_append, List.nil_append]
  rw [Nat.mod_eq_of_lt (show id.length < 256 by omega)]
  rw [readBlock_ext_step, readExtension_application, readApplication_unknownId st id sbs rest hne hsbs]

/-- Unknown-extension round trip through `ReadBlock`. -/
theorem writeUnknownExtension_roundtrip (lzwD : Nat → List Nat → List Nat) (st : DecState)
    (ue : UnknownExtension) (hv : validBlock (.unknownExtension ue) = true)
    (rest : List Nat) :
    ∃ out, WriteUnknownExtension ue = .ok out ∧
      ReadBlock lzwD st (out ++ rest) = (.block (.unknownExtension ue), st, rest) := by
  obtain ⟨label, sbs⟩ := ue
  simp only [validBlock, Bool.and_eq_true, decide_eq_true_eq] at hv
  obtain ⟨⟨⟨⟨⟨hlab, h1⟩, h2⟩, h3⟩, h4⟩, hsb⟩ := hv
  have hsbs : ∀ sb ∈ sbs, 1 ≤ sb.length ∧ sb.length ≤ 255 := by
    intro sb hs
    simp only [validSubBlocks, List.all_eq_true] at hsb
    have := hsb sb hs
    simp only [Bool.and_eq_true, decide_eq_true_eq] at this
    omega
  have hsbv : validateSubBlocks sbs = .ok () :=
    validateSubBlocks_ok sbs (fun sb h => (hsbs sb h).2)
  have hw : WriteUnknownExtension ⟨label, sbs⟩ =
      .ok ([sExtension, label % 256] ++ writeSubBlocks sbs) := by
    simp only [WriteUnknownExtension, hsbv]
  refine ⟨_, hw, ?_⟩
  simp only [List.append_assoc, List.cons_append, List.nil_append]
  rw [Nat.mod_eq_of_lt (show label < 256 by omega)]
  rw [readBlock_ext_step, readExtension_unknownLabel lzwD st label _ h1 h2 h3 h4]
  simp only [readUnknownExtension, readSubBlocks_write sbs rest hsbs]

/-- Netscape application round trip through `ReadBlock`. -/
theorem writeApplicationNetscape_roundtrip (lzwD : Nat → List Nat → List Nat) (st : DecState)
    (an : ApplicationNetscape) (hv : validBlock (.applicationNetscape an) = true)
    (rest : List Nat) :
    ∃ out, WriteApplicationNetscape an = .ok out ∧
      ReadBlock lzwD st (out ++ rest) =
        (.block (.applicationNetscape an), { st with loopCount := an.loopCount }, rest) := by
  obtain ⟨lc, sbs⟩ := an
  simp only [validBlock, Bool.and_eq_true, decide_eq_true_eq] at hv
  obtain ⟨⟨hlc0, hlc1⟩, hsb⟩ := hv
  have hsbs : ∀ sb ∈ sbs, 1 ≤ sb.length ∧ sb.length ≤ 255 := by
    intro sb hs
    simp only [validSubBlocks, List.all_eq_true] at hsb
    have := hsb sb hs
    simp only [Bool.and_eq_true, decide_eq_true_eq] at this
    omega
  have hsbv : validateSubBlocks sbs = .ok () :=
    validateSubBlocks_ok sbs (fun sb h => (hsbs sb h).2)
  have hw : WriteApplicationNetscape ⟨lc, sbs⟩ =
      .ok ([sExtension, eApplication, 0x0b] ++ netscapeId ++
        [0x03, 0x01] ++ u16i lc ++ writeSubBlocks sbs) := by
    simp only [WriteApplicationNetscape, hsbv]
  refine ⟨_, hw, ?_⟩
  have hshape : (([sExtension, eApplication, 0x0b] ++ netscapeId ++
      [0x03, 0x01] ++ u16i lc ++ writeSubBlocks sbs) ++ rest) =
      sExtension :: eApplication ::
        0x0b :: (netscapeId ++
          ([1, (lc % 65536).toNat % 256, (lc % 65536).toNat / 256] : List Nat).length ::
            (([1, (lc % 65536).toNat % 256, (lc % 65536).toNat / 256] : List Nat) ++
              (writeSubBlocks sbs ++ rest))) := by
    simp [u16i, List.append_assoc]
  rw [hshape, readBlock_ext_step, readExtension_application,
    readApplication_netscape st _ sbs rest (by simp) (by simp) hsbs]
  have hdec := u16i_decode lc hlc0 hlc1
  simp only [u16i, List.getD_cons_zero, List.getD_cons_succ] at hdec
  rw [show (([1, (lc % 65536).toNat % 256, (lc % 65536).toNat / 256] : List Nat).getD 1 0) =
    (lc % 65536).toNat % 256 from rfl]
  rw [show (([1, (lc % 65536).toNat % 256, (lc % 65536).toNat / 256] : List Nat).getD 2 0) =
    (lc % 65536).toNat / 256 from rfl]
  rw [hdec]
  have hcond : (([1, (lc % 65536).toNat % 256, (lc % 65536).toNat / 256] : List Nat).length = 3 ∧
      ([1, (lc % 65536).toNat % 256, (lc % 65536).toNat / 256] : List Nat).getD 0 0 = 1) :=
    ⟨rfl, rfl⟩
  simp only [if_pos hcond]

/-- Numeric facts about a power-of-two palette size in `[2, 256]`. -/
theorem palSize_facts (n : Nat) (hp : palPow2 n = n) (h256 : n ≤ 256) :
    2 ≤ n ∧ palSizeLog n ≤ 7 ∧ 2 ^ (palSizeLog n + 1) = n := by
  have he : 2 ^ max 1 (clog2 n) = n := hp
  have h1 : 1 ≤ max 1 (clog2 n) := le_max_left _ _
  have h2 : 2 ≤ n := by
    calc (2 : Nat) = 2 ^ 1 := rfl
    _ ≤ 2 ^ max 1 (clog2 n) := Nat.pow_le_pow_right (by norm_num) h1
    _ = n := he
  have h8 : max 1 (clog2 n) ≤ 8 := by
    by_contra hgt
    push_neg at hgt
    have hpow : (2 : Nat) ^ 9 ≤ 2 ^ max 1 (clog2 n) :=
      Nat.pow_le_pow_right (by norm_num) (by omega)
    rw [he] at hpow
    norm_num at hpow
    omega
  refine ⟨h2, by simp only [palSizeLog]; omega, ?_⟩
  have hmax : palSizeLog n + 1 = max 1 (clog2 n) := by
    simp only [palSizeLog]
    omega
  rw [hmax]
  exact he

/-- Frame image-block round trip through `ReadBlock` (nil global palette,
`lzwD` inverting `lzwE`). -/
theorem readBlock_frameBytes (lzwE lzwD : Nat → List Nat → List Nat)
    (hlzw : ∀ k s, lzwD k (lzwE k s) = s) (st : DecState)
    (hT : st.hasTransparentIndex = false) (p : PalImg) (hv : validImage p = true)
    (rest : List Nat) :
    ReadBlock lzwD st (frameImageBytes lzwE [] p ++ rest) =
      (.block (.frame ⟨p, st.delayTime, st.disposalMethod⟩),
       { st with delayTime := 0, disposalMethod := 0, hasTransparentIndex := false }, rest) := by
  obtain ⟨⟨mnX, mnY, mxX, mxY⟩, stri, pix, pal⟩ := p
  simp only [validImage, Rect.width, Rect.height, Bool.and_eq_true, decide_eq_true_eq] at hv
  obtain ⟨⟨⟨⟨⟨⟨⟨⟨⟨⟨hmnX, hmnY⟩, hw1⟩, hw2⟩, hh1⟩, hh2⟩, hstr⟩, hpl⟩, hppal⟩, hp256⟩,
    hopaque⟩ := hv
  obtain ⟨hn2, hsl, hexp⟩ := palSize_facts pal.length hppal hp256
  have hne : (pal == ([] : List Color)) = false := by
    cases pal with
    | nil => simp at hn2
    | cons c t => rfl
  have hfb : frameImageBytes lzwE []
        (⟨⟨mnX, mnY, mxX, mxY⟩, stri, pix, pal⟩ : PalImg) ++ rest =
      sImageDescriptor :: (u16 mnX ++ (u16 mnY ++ (u16 (mxX - mnX) ++ (u16 (mxY - mnY) ++
        ((0x80 + palSizeLog pal.length) :: (paletteBytes pal ++
          (litWidth pal.length :: (framed (lzwE (litWidth pal.length)
            (rasterPixels (⟨⟨mnX, mnY, mxX, mxY⟩, stri, pix, pal⟩ : PalImg))) ++
              rest)))))))) := by
    simp [frameImageBytes, hne, Rect.width, Rect.height, List.append_assoc]
  rw [hfb, readBlock_image_step]
  have htk : takeN 9 (u16 mnX ++ (u16 mnY ++ (u16 (mxX - mnX) ++ (u16 (mxY - mnY) ++
        ((0x80 + palSizeLog pal.length) :: (paletteBytes pal ++
          (litWidth pal.length :: (framed (lzwE (litWidth pal.length)
            (rasterPixels (⟨⟨mnX, mnY, mxX, mxY⟩, stri, pix, pal⟩ : PalImg))) ++
              rest)))))))) =
      .ok ([mnX % 256, mnX / 256 % 256, mnY % 256, mnY / 256 % 256,
            (mxX - mnX) % 256, (mxX - mnX) / 256 % 256,
            (mxY - mnY) % 256, (mxY - mnY) / 256 % 256,
            0x80 + palSizeLog pal.length],
           paletteBytes pal ++
             (litWidth pal.length :: (framed (lzwE (litWidth pal.length)
               (rasterPixels (⟨⟨mnX, mnY, mxX, mxY⟩, stri, pix, pal⟩ : PalImg))) ++
                 rest))) := rfl
  simp only [readImageDescriptor, htk, List.getD_cons_zero, List.getD_cons_succ]
  have hpk1 : (0x80 + palSizeLog pal.length) / 128 % 2 = 1 := by omega
  have hpk8 : (0x80 + palSizeLog pal.length) % 8 = palSizeLog pal.length := by omega
  rw [hpk1, hpk8, hexp]
  simp only [if_pos rfl]
  have htk2 : takeN (3 * pal.length)
      ((pal.flatMap (fun c => [c.r % 256, c.g % 256, c.b % 256])) ++
        (litWidth pal.length :: (framed (lzwE (litWidth pal.length)
          (rasterPixels (⟨⟨mnX, mnY, mxX, mxY⟩, stri, pix, pal⟩ : PalImg))) ++ rest))) =
      .ok (pal.flatMap (fun c => [c.r % 256, c.g % 256, c.b % 256]),
           litWidth pal.length :: (framed (lzwE (litWidth pal.length)
             (rasterPixels (⟨⟨mnX, mnY, mxX, mxY⟩, stri, pix, pal⟩ : PalImg))) ++ rest)) :=
    takeN_eq _ _ _ (palFlat_length pal)
  rw [paletteBytes_pow2 pal hppal, htk2]
  have hdec := palFlat_decode pal hopaque []
  simp only [List.append_nil] at hdec
  simp only [hdec, if_true]
  simp only [readLzwData_framed, hlzw]
  rw [rasterPixels_contiguous (⟨⟨mnX, mnY, mxX, mxY⟩, stri, pix, pal⟩ : PalImg)
    (by simpa [Rect.width] using hstr) (by simpa [Rect.width, Rect.height] using hpl)]
  rw [u16_decode mnX hmnX, u16_decode mnY hmnY, u16_decode (mxX - mnX) hw2,
    u16_decode (mxY - mnY) hh2]
  rw [if_neg (by simp only [Decidable.not_not]; exact hpl)]
  rw [hT]
  simp only [Bool.false_eq_true, if_false]
  have hx : mnX + (mxX - mnX) = mxX := by omega
  have hy : mnY + (mxY - mnY) = mxY := by omega
  rw [hx, hy, ← hstr]

/-- Full frame round trip through `ReadBlock` from a scratch-clean decoder
state (nil global palette). -/
theorem writeFrame_roundtrip (lzwE lzwD : Nat → List Nat → List Nat)
    (hlzw : ∀ k s, lzwD k (lzwE k s) = s) (st : DecState)
    (h0 : st.delayTime = 0) (h1 : st.disposalMethod = 0)
    (h2 : st.hasTransparentIndex = false) (f : Frame)
    (hv : validBlock (.frame f) = true) (rest : List Nat) :
    ∃ out st', WriteFrame lzwE [] f = .ok out ∧
      ReadBlock lzwD st (out ++ rest) = (.block (.frame f), st', rest) ∧
      st'.delayTime = 0 ∧ st'.disposalMethod = 0 ∧ st'.hasTransparentIndex = false ∧
      st'.loopCount = st.loopCount ∧ st'.globalPalette = st.globalPalette := by
  obtain ⟨p, dt, dm⟩ := f
  simp only [validBlock, Bool.and_eq_true, decide_eq_true_eq] at hv
  obtain ⟨⟨hvi, hdt⟩, hdm⟩ := hv
  have hvi' := hvi
  simp only [validImage, Bool.and_eq_true, decide_eq_true_eq] at hvi'
  obtain ⟨⟨⟨⟨⟨⟨⟨⟨⟨⟨hmnX, hmnY⟩, hw1⟩, hw2⟩, hh1⟩, hh2⟩, hstr⟩, hpl⟩, hppal⟩, hp256⟩,
    hopaque⟩ := hvi'
  have hT : hasTransparent p.palette = false := hasTransparent_opaque p.palette hopaque
  have hsize : ¬((decide (p.rect.width > 0xffff) || decide (p.rect.height > 0xffff)) = true) := by
    simp only [Bool.or_eq_true, decide_eq_true_eq]
    omega
  by_cases hc : dt ≠ 0 ∨ dm ≠ 0
  · have hgce : (decide (dt > 0) || decide (dm ≠ 0) || hasTransparent p.palette) = true := by
      rw [hT]
      simp only [Bool.or_eq_true, decide_eq_true_eq]
      omega
    have hw : WriteFrame lzwE [] ⟨p, dt, dm⟩ =
        .ok (gceBytes dm dt (transparentIdx p.palette) (hasTransparent p.palette) ++
          frameImageBytes lzwE [] p) := by
      simp only [WriteFrame, if_neg hsize, hgce, if_true]
    refine ⟨_, ⟨0, 0, transparentIdx p.palette % 256, false, st.loopCount,
      st.globalPalette⟩, hw, ?_, rfl, rfl, rfl, rfl, rfl⟩
    simp only [gceBytes, hT, Bool.false_eq_true, if_false, Nat.add_zero, List.append_assoc,
      List.cons_append, List.nil_append]
    rw [readBlock_gce_norm]
    rw [readBlock_frameBytes lzwE lzwD hlzw _ (by simp; omega) p hvi rest]
    rw [u16_decode dt hdt]
    have hdm4 : dm * 4 % 256 / 4 % 8 = dm := by omega
    rw [hdm4]
  · push_neg at hc
    obtain ⟨hcd, hcm⟩ := hc
    subst hcd
    subst hcm
    have hgce : (decide ((0 : Nat) > 0) || decide ((0 : Nat) ≠ 0) ||
        hasTransparent p.palette) = false := by
      rw [hT]
      simp
    have hw : WriteFrame lzwE [] ⟨p, 0, 0⟩ = .ok ([] ++ frameImageBytes lzwE [] p) := by
      simp only [WriteFrame, if_neg hsize, hgce, Bool.false_eq_true, if_false]
    refine ⟨_, ⟨0, 0, st.transparentIndex, false, st.loopCount, st.globalPalette⟩, hw, ?_,
      rfl, rfl, rfl, rfl, rfl⟩
    simp only [List.nil_append]
    rw [readBlock_frameBytes lzwE lzwD hlzw st h2 p hvi rest, h0, h1]

/-- Header round trip (nil global palette). -/
theorem writeHeader_roundtrip (st : DecState) (w h bg : Nat)
    (hw : w ≤ 0xffff) (hh : h ≤ 0xffff) (hbg : bg ≤ 255) (rest : List Nat) :
    ∃ out, WriteHeader ⟨w, h, []⟩ bg = .ok out ∧
      ReadHeader st (out ++ rest) =
        .ok (⟨[0x47, 0x49, 0x46, 0x38, 0x37, 0x61], ⟨w, h, []⟩, bg⟩, st, rest) := by
  have hsize : ¬((decide (w > 0xffff) || decide (h > 0xffff)) = true) := by
    simp only [Bool.or_eq_true, decide_eq_true_eq]
    omega
  have hwout : WriteHeader ⟨w, h, []⟩ bg =
      .ok ([0x47, 0x49, 0x46, 0x38, 0x37, 0x61] ++ u16 w ++ u16 h ++
        [0x70, bg % 256, 0x00] ++ []) := by
    simp only [WriteHeader, if_neg hsize, List.isEmpty_nil, if_true]
  refine ⟨_, hwout, ?_⟩
  simp only [List.append_assoc, List.cons_append, List.nil_append, List.append_nil]
  have htk6 : takeN 6 ((0x47 : Nat) :: 0x49 :: 0x46 :: 0x38 :: 0x37 :: 0x61 ::
        (u16 w ++ (u16 h ++ (0x70 :: bg % 256 :: 0x00 :: rest)))) =
      .ok ([0x47, 0x49, 0x46, 0x38, 0x37, 0x61],
        u16 w ++ (u16 h ++ (0x70 :: bg % 256 :: 0x00 :: rest))) := rfl
  simp only [ReadHeader, htk6]
  rw [if_neg (by simp)]
  have htk7 : takeN 7 (u16 w ++ (u16 h ++ ((0x70 : Nat) :: bg % 256 :: 0x00 :: rest))) =
      .ok ([w % 256, w / 256 % 256, h % 256, h / 256 % 256, 0x70, bg % 256, 0x00],
        rest) := rfl
  simp only [htk7, List.getD_cons_zero, List.getD_cons_succ]
  rw [if_neg (by norm_num)]
  rw [u16_decode w hw, u16_decode h hh, Nat.mod_eq_of_lt (show bg < 256 by omega)]

/-- Block-kind dispatch of the per-kind round trips: any valid block writes
successfully and reads back equal from a scratch-clean decoder state,
leaving the scratch clean again. -/
theorem writeBlock_roundtrip (lzwE lzwD : Nat → List Nat → List Nat)
    (hlzw : ∀ k s, lzwD k (lzwE k s) = s) (st : DecState)
    (h0 : st.delayTime = 0) (h1 : st.disposalMethod = 0)
    (h2 : st.hasTransparentIndex = false) (b : Block)
    (hv : validBlock b = true) (rest : List Nat) :
    ∃ out st', WriteBlock lzwE [] b = .ok out ∧
      ReadBlock lzwD st (out ++ rest) = (.block b, st', rest) ∧
      st'.delayTime = 0 ∧ st'.disposalMethod = 0 ∧ st'.hasTransparentIndex = false := by
  cases b with
  | frame f =>
    obtain ⟨out, st', hw, hr, c0, c1, c2, _, _⟩ :=
      writeFrame_roundtrip lzwE lzwD hlzw st h0 h1 h2 f hv rest
    exact ⟨out, st', hw, hr, c0, c1, c2⟩
  | plainText pt =>
    obtain ⟨out, st', hw, hr, c0, c1, c2, _, _⟩ :=
      writePlainText_roundtrip lzwD st pt hv h0 h1 h2 rest
    exact ⟨out, st', hw, hr, c0, c1, c2⟩
  | comment c =>
    obtain ⟨out, hw, hr⟩ := writeComment_roundtrip lzwD st c hv rest
    exact ⟨out, st, hw, hr, h0, h1, h2⟩
  | applicationNetscape an =>
    obtain ⟨out, hw, hr⟩ := writeApplicationNetscape_roundtrip lzwD st an hv rest
    exact ⟨out, _, hw, hr, h0, h1, h2⟩
  | unknownApplication ua =>
    obtain ⟨out, hw, hr⟩ := writeUnknownApplication_roundtrip lzwD st ua hv rest
    exact ⟨out, st, hw, hr, h0, h1, h2⟩
  | unknownExtension ue =>
    obtain ⟨out, hw, hr⟩ := writeUnknownExtension_roundtrip lzwD st ue hv rest
    exact ⟨out, st, hw, hr, h0, h1, h2⟩

/-- C1 (amended): for every block `b` valid in the sharpened sense
(`validBlock`: the spec's §3 invariants plus the conditions the code
actually forces — non-empty strings of length ≤ 128, non-empty sub-blocks,
a non-NETSCAPE2.0 unknown-application identifier, a known-label-free
unknown extension, an opaque power-of-two palette), encoding the stream
`[header, b, terminator-frame, trailer]` succeeds and decoding the bytes
yields exactly the block `b`, then the terminator frame, then
end-of-stream, for any LZW codec pair with `lzwD k ∘ lzwE k = id`. -/
theorem encode_decode_roundtrip (lzwE lzwD : Nat → List Nat → List Nat)
    (hlzw : ∀ k s, lzwD k (lzwE k s) = s) (w h bg : Nat)
    (hw : w ≤ 0xffff) (hh : h ≤ 0xffff) (hbg : bg ≤ 255)
    (b : Block) (hv : validBlock b = true) :
    ∃ bytes hdr st1 r1 st2 r2 st3,
      encodeStream lzwE ⟨w, h, []⟩ bg b = .ok bytes ∧
      ReadHeader DecState.init bytes = .ok (hdr, st1, r1) ∧
      ReadBlock lzwD st1 r1 = (.block b, st2, r2) ∧
      ReadBlock lzwD st2 r2 = (.block (.frame termFrame), st3, [sTrailer]) ∧
      ReadBlock lzwD st3 [sTrailer] = (.eof, st3, []) := by
  have hvt : validBlock (.frame termFrame) = true := by decide
  obtain ⟨fb0, st0, hwf0, _⟩ :=
    writeFrame_roundtrip lzwE lzwD hlzw DecState.init rfl rfl rfl termFrame hvt []
  obtain ⟨bb, st2, hwb, hrb, b0, b1, b2⟩ :=
    writeBlock_roundtrip lzwE lzwD hlzw DecState.init rfl rfl rfl b hv (fb0 ++ [sTrailer])
  obtain ⟨fb, st3, hwf, hrf, _, _, _, _, _⟩ :=
    writeFrame_roundtrip lzwE lzwD hlzw st2 b0 b1 b2 termFrame hvt [sTrailer]
  have hfe : fb0 = fb := by
    have hoo := hwf0.symm.trans hwf
    simpa using hoo
  subst hfe
  obtain ⟨hb, hwh, hrh⟩ :=
    writeHeader_roundtrip DecState.init w h bg hw hh hbg (bb ++ (fb0 ++ [sTrailer]))
  refine ⟨hb ++ (bb ++ (fb0 ++ [sTrailer])), _, DecState.init, _, st2, _, st3,
    ?_, hrh, hrb, hrf, rfl⟩
  simp only [encodeStream, hwh, hwb, hwf0]
  simp [WriteTrailer, List.append_assoc]

/-- Witness for the amended round trip: the concrete comment
`Comment{Strings: ["hi"]}` in a 1×1 nil-palette stream with the identity
LZW codec. -/
theorem encode_decode_roundtrip_witness :
    ((1 : Nat) ≤ 0xffff ∧ (0 : Nat) ≤ 255 ∧
      validBlock (.comment ⟨[[104, 105]]⟩) = true) ∧
    ∃ bytes hdr st1 r1 st2 r2 st3,
      encodeStream lzwId ⟨1, 1, []⟩ 0 (.comment ⟨[[104, 105]]⟩) = .ok bytes ∧
      ReadHeader DecState.init bytes = .ok (hdr, st1, r1) ∧
      ReadBlock lzwId st1 r1 = (.block (.comment ⟨[[104, 105]]⟩), st2, r2) ∧
      ReadBlock lzwId st2 r2 = (.block (.frame termFrame), st3, [sTrailer]) ∧
      ReadBlock lzwId st3 [sTrailer] = (.eof, st3, []) :=
  ⟨⟨by decide, by decide, by decide⟩,
   encode_decode_roundtrip lzwId lzwId (fun _ _ => rfl) 1 1 0 (by decide) (by decide)
     (by decide) (.comment ⟨[[104, 105]]⟩) (by decide)⟩

/-- C1 counterexample to the claim as stated: the block
`UnknownApplication{Identifier: "NETSCAPE2.0", SubBlocks: []}` satisfies
every §3 validity invariant (11-character ASCII identifier, sub-blocks of
length ≤ 255) and is encoded without error, but on decode
`readApplication` recognizes the NETSCAPE2.0 identifier and consumes the
sub-block terminator as a first loop-count sub-block of length 0, after
which reading the next sub-block length hits the image descriptor byte and
the stream desyncs: the block under test comes back as a read failure, not
as a value equal to the encoded `UnknownApplication`. -/
theorem roundtrip_unknownApplication_netscape :
    specValidUnknownApplication ⟨netscapeId, []⟩ = true ∧
    ∃ bytes,
      encodeStream lzwId ⟨1, 1, []⟩ 0 (.unknownApplication ⟨netscapeId, []⟩) = .ok bytes ∧
      decodesToFailure bytes = true := by
  exact ⟨by decide, ⟨_, rfl, by decide⟩⟩

/-! ### Optimizer: first call -/

/-- C8 (amended): the first call to `Optimize` on a fresh optimizer returns
the argument `pm` itself — rectangle, palette and pixels untouched — and
installs as mirror a fresh contiguous image over `pm`'s rectangle and
palette whose buffer is a straight prefix copy of `pm`'s raw buffer
(`copy(mirror.Pix, pm.Pix)`), zero-filled beyond it; when `pm` itself is
contiguous (`stride = width`, buffer length `width*height`) that mirror is
exactly `pm`, but for a sub-image with `stride > width` it is not a
pixel-grid copy. -/
theorem optimize_first_call (t : Nat) (pm : PalImg) :
    optimize (NewOptimizer t) pm = .ok (pm, ⟨some (mkMirror pm), [t]⟩) ∧
    (mkMirror pm).rect = pm.rect ∧ (mkMirror pm).palette = pm.palette ∧
    (mkMirror pm).stride = pm.rect.width ∧
    (mkMirror pm).pix =
      pm.pix.take (pm.rect.width * pm.rect.height) ++
        List.replicate (pm.rect.width * pm.rect.height - pm.pix.length) 0 ∧
    (pm.stride = pm.rect.width → pm.pix.length = pm.rect.width * pm.rect.height →
      mkMirror pm = pm) := by
  refine ⟨rfl, rfl, rfl, rfl, rfl, ?_⟩
  intro hs hl
  obtain ⟨r, stri, pix, pal⟩ := pm
  simp only [mkMirror]
  simp only at hs hl
  rw [← hl, List.take_length, Nat.sub_self, List.replicate_zero, List.append_nil, hs]

/-- Witness for the first-call theorem: a concrete contiguous 2×1 image,
for which the installed mirror equals the input exactly. -/
theorem optimize_first_call_witness :
    optimize (NewOptimizer 2) (⟨⟨0, 0, 2, 1⟩, 2, [5, 6], []⟩ : PalImg) =
      .ok (⟨⟨0, 0, 2, 1⟩, 2, [5, 6], []⟩,
        ⟨some (mkMirror ⟨⟨0, 0, 2, 1⟩, 2, [5, 6], []⟩), [2]⟩) ∧
    mkMirror (⟨⟨0, 0, 2, 1⟩, 2, [5, 6], []⟩ : PalImg) = ⟨⟨0, 0, 2, 1⟩, 2, [5, 6], []⟩ :=
  ⟨(optimize_first_call 2 _).1,
   (optimize_first_call 2 (⟨⟨0, 0, 2, 1⟩, 2, [5, 6], []⟩ : PalImg)).2.2.2.2.2
     (by decide) (by decide)⟩

/-- C8 counterexample to "installs a copy of pm's pixels": for the 1×2
sub-image with stride 2 and raw buffer `[1,2,3,4]`, the first call returns
the input unchanged, but the installed mirror reads 2 at the in-bounds
grid point (0,1) where the input reads 3 — the linear `copy` does not
respect the sub-image's row stride. -/
theorem optimize_first_call_mirror_differs :
    optimize (NewOptimizer 0) (⟨⟨0, 0, 1, 2⟩, 2, [1, 2, 3, 4], []⟩ : PalImg) =
      .ok (⟨⟨0, 0, 1, 2⟩, 2, [1, 2, 3, 4], []⟩,
        ⟨some (mkMirror ⟨⟨0, 0, 1, 2⟩, 2, [1, 2, 3, 4], []⟩), [0]⟩) ∧
    Rect.mem (⟨0, 0, 1, 2⟩ : Rect) 0 1 = true ∧
    (mkMirror (⟨⟨0, 0, 1, 2⟩, 2, [1, 2, 3, 4], []⟩ : PalImg)).pixAt 0 1 = 2 ∧
    (⟨⟨0, 0, 1, 2⟩, 2, [1, 2, 3, 4], []⟩ : PalImg).pixAt 0 1 = 3 := by
  exact ⟨rfl, rfl, by decide, by decide⟩

/-! ### Optimizer loop: support lemmas -/

theorem setRange_length : ∀ (l : List Nat) (i : Nat) (vs : List Nat),
    (setRange l i vs).length = l.length := by
  intro l
  induction l with
  | nil => intro i vs; cases vs <;> simp [setRange]
  | cons a l ih =>
    intro i vs
    cases vs with
    | nil => simp [setRange]
    | cons v vs =>
      cases i with
      | zero => simp [setRange, ih]
      | succ i => simp [setRange, ih]

/-- `setRange` leaves indices below the write position untouched. -/
theorem setRange_getD_lt : ∀ (l : List Nat) (i0 : Nat) (vs : List Nat) (j : Nat), j < i0 →
    (setRange l i0 vs).getD j 0 = l.getD j 0 := by
  intro l
  induction l with
  | nil => intro i0 vs j _; cases vs <;> simp [setRange]
  | cons a l ih =>
    intro i0 vs j hj
    cases vs with
    | nil => simp [setRange]
    | cons v vs =>
      cases i0 with
      | zero => omega
      | succ i0 =>
        cases j with
        | zero => simp [setRange]
        | succ j =>
          simp only [setRange, List.getD_cons_succ]
          exact ih i0 (v :: vs) j (by omega)

/-- `setRange` writes the source values inside the write window. -/
theorem setRange_getD_in : ∀ (l : List Nat) (i0 : Nat) (vs : List Nat) (j : Nat),
    i0 ≤ j → j < i0 + vs.length → j < l.length →
    (setRange l i0 vs).getD j 0 = vs.getD (j - i0) 0 := by
  intro l
  induction l with
  | nil => intro i0 vs j _ _ h; simp at h
  | cons a l ih =>
    intro i0 vs j h1 h2 h3
    cases vs with
    | nil => simp at h2; omega
    | cons v vs =>
      cases i0 with
      | zero =>
        cases j with
        | zero => simp [setRange]
        | succ j =>
          simp only [setRange, List.getD_cons_succ, Nat.sub_zero]
          exact ih 0 vs j (by omega) (by simp at h2 ⊢; omega) (by simpa using h3)
      | succ i0 =>
        cases j with
        | zero => omega
        | succ j =>
          simp only [setRange, List.getD_cons_succ, Nat.succ_sub_succ]
          exact ih i0 (v :: vs) j (by omega) (by simp at h2 ⊢; omega) (by simpa using h3)

/-- `setRange` leaves indices at or beyond the write window untouched. -/
theorem setRange_getD_ge : ∀ (l : List Nat) (i0 : Nat) (vs : List Nat) (j : Nat),
    i0 + vs.length ≤ j → (setRange l i0 vs).getD j 0 = l.getD j 0 := by
  intro l
  induction l with
  | nil => intro i0 vs j _; cases vs <;> simp [setRange]
  | cons a l ih =>
    intro i0 vs j hj
    cases vs with
    | nil => simp [setRange]
    | cons v vs =>
      cases i0 with
      | zero =>
        cases j with
        | zero => simp at hj
        | succ j =>
          simp only [setRange, List.getD_cons_succ]
          exact ih 0 vs j (by simp at hj ⊢; omega)
      | succ i0 =>
        cases j with
        | zero => simp [setRange]
        | succ j =>
          simp only [setRange, List.getD_cons_succ]
          exact ih i0 (v :: vs) j (by simp at hj ⊢; omega)

theorem growXsF_length : ∀ (f : Nat) (xs : List Nat) (n : Nat), xs ≠ [] →
    n ≤ xs.length + f → n ≤ (growXsF f xs n).length := by
  intro f
  induction f with
  | zero =>
    intro xs n _ hn
    simpa [growXsF] using hn
  | succ f ih =>
    intro xs n hne hn
    have h1 : 1 ≤ xs.length := List.length_pos.mpr hne
    simp only [growXsF]
    split
    · apply ih
      · simp [hne]
      · simp only [List.length_append]
        omega
    · rename_i h
      by_cases hlt : xs.length < n
      · exact absurd ⟨hlt, by omega⟩ h
      · omega

theorem growXsF_ne : ∀ (f : Nat) (xs : List Nat) (n : Nat), xs ≠ [] →
    growXsF f xs n ≠ [] := by
  intro f
  induction f with
  | zero => intro xs n h; simpa [growXsF] using h
  | succ f ih =>
    intro xs n hne
    simp only [growXsF]
    split
    · exact ih _ _ (by simp [hne])
    · exact hne

theorem growXsF_mem : ∀ (f : Nat) (xs : List Nat) (n t : Nat), (∀ v ∈ xs, v = t) →
    ∀ v ∈ growXsF f xs n, v = t := by
  intro f
  induction f with
  | zero => intro xs n t h; simpa [growXsF] using h
  | succ f ih =>
    intro xs n t h
    simp only [growXsF]
    split
    · apply ih
      intro v hv
      rcases List.mem_append.mp hv with hv | hv
      · exact h v hv
      · exact h v hv
    · exact h

theorem growXs_length (xs : List Nat) (n : Nat) (h : xs ≠ []) :
    n ≤ (growXs xs n).length :=
  growXsF_length n xs n h (by omega)

theorem growXs_ne (xs : List Nat) (n : Nat) (h : xs ≠ []) : growXs xs n ≠ [] :=
  growXsF_ne n xs n h

theorem growXs_mem (xs : List Nat) (n t : Nat) (h : ∀ v ∈ xs, v = t) :
    ∀ v ∈ growXs xs n, v = t :=
  growXsF_mem n xs n t h

/-- Taking from an all-`t` list yields a replicate. -/
theorem take_all_t : ∀ (l : List Nat) (k t : Nat), (∀ v ∈ l, v = t) → k ≤ l.length →
    l.take k = List.replicate k t := by
  intro l
  induction l with
  | nil =>
    intro k t _ hk
    simp only [List.length_nil, Nat.le_zero] at hk
    simp [hk]
  | cons a l ih =>
    intro k t hall hk
    cases k with
    | zero => rfl
    | succ k =>
      rw [List.take_succ_cons, List.replicate_succ]
      have ha : a = t := hall a (by simp)
      rw [ha, ih k t (fun v hv => hall v (by simp [hv])) (by simpa using hk)]

theorem getD_replicate : ∀ (k t m : Nat), m < k → (List.replicate k t).getD m 0 = t := by
  intro k
  induction k with
  | zero => intro t m h; omega
  | succ k ih =>
    intro t m h
    cases m with
    | zero => rfl
    | succ m =>
      rw [List.replicate_succ, List.getD_cons_succ]
      exact ih t m (by omega)

/-- Reading through a drop-then-take window hits the underlying list. -/
theorem drop_take_getD (l : List Nat) (a k m : Nat) (hm : m < k) :
    ((l.drop a).take k).getD m 0 = l.getD (a + m) 0 := by
  simp only [List.getD_eq_getElem?_getD]
  rw [List.getElem?_take_of_lt hm, List.getElem?_drop]

/-- A membered rectangle is non-empty. -/
theorem rect_mem_not_empty (r : Rect) (x y : Nat) (h : r.mem x y = true) :
    r.isEmpty = false := by
  simp only [Rect.mem, Bool.and_eq_true, decide_eq_true_eq] at h
  simp only [Rect.isEmpty, Bool.or_eq_false_iff, decide_eq_false_iff_not]
  omega

/-- Union preserves membership from either side. -/
theorem rect_mem_union (r s : Rect) (x y : Nat)
    (h : r.mem x y = true ∨ s.mem x y = true) : (r.union s).mem x y = true := by
  simp only [Rect.union]
  split
  · rcases h with h | h
    · rw [rect_mem_not_empty r x y h] at *
      rename_i he
      simp at he
    · exact h
  · split
    · rcases h with h | h
      · exact h
      · rw [rect_mem_not_empty s x y h] at *
        rename_i he _
        simp at *
    · rcases h with h | h <;>
        (simp only [Rect.mem, Bool.and_eq_true, decide_eq_true_eq] at h ⊢; omega)

/-- Intersection keeps common members. -/
theorem rect_mem_inter (r s : Rect) (x y : Nat)
    (hr : r.mem x y = true) (hs : s.mem x y = true) :
    (Rect.intersect r s).mem x y = true := by
  simp only [Rect.mem, Bool.and_eq_true, decide_eq_true_eq] at hr hs
  simp only [Rect.intersect]
  split
  · rename_i he
    simp only [Rect.isEmpty, Bool.or_eq_true, decide_eq_true_eq] at he
    exfalso
    omega
  · simp only [Rect.mem, Bool.and_eq_true, decide_eq_true_eq]
    omega

/-- Under the loop invariant, the loop's live comparison at the current
index agrees with the comparison over the original buffers. -/
theorem bpCond_eq (B M : List Nat) (t stri i : Nat) (s : RunSt)
    (hinv : RunInv B M t stri i s) : bpCond s i = cond0 B M t i := by
  obtain ⟨hi0, _, _, _, hxne, hxt, _, hbp, _, hmp, _, _⟩ := hinv
  have hb : s.bpix.getD i 0 = B.getD i 0 := by
    rw [hbp i, if_neg]
    rintro ⟨h, _⟩
    omega
  have hm : s.mpix.getD i 0 = M.getD i 0 := by
    rw [hmp i, if_neg]
    rintro ⟨h, _⟩
    omega
  have hx : s.xs.getD 0 0 = t := by
    rcases hxseq : s.xs with _ | ⟨a, xs⟩
    · exact absurd hxseq hxne
    · simpa using hxt a (by rw [hxseq]; simp)
  simp only [bpCond, cond0, hb, hm, hx]

/-- `RunInv` unfolded on a literal state. -/
theorem runInv_mk (B M : List Nat) (t stri i : Nat) (bp mp xs : List Nat) (cr : Rect)
    (sm : Bool) (i0 x0 y0 : Nat) :
    RunInv B M t stri i ⟨bp, mp, xs, cr, sm, i0, x0, y0⟩ ↔
      (i0 < i ∧ x0 = i0 % stri ∧ y0 = i0 / stri ∧
       (∀ j, i0 ≤ j → j < i → cond0 B M t j = sm) ∧
       xs ≠ [] ∧ (∀ v ∈ xs, v = t) ∧
       bp.length = B.length ∧
       (∀ j, bp.getD j 0 = if j < i0 ∧ cond0 B M t j = true then t else B.getD j 0) ∧
       mp.length = M.length ∧
       (∀ j, mp.getD j 0 = if j < i0 ∧ cond0 B M t j = false then B.getD j 0 else M.getD j 0) ∧
       ((∀ j, j < i0 → cond0 B M t j = true) → cr = Rect.zero) ∧
       (∀ j, j < i0 → cond0 B M t j = false → cr.mem (j % stri) (j / stri) = true)) :=
  Iff.rfl

/-- One non-final iteration of `optimizeByPix` preserves the invariant. -/
theorem byPixStep_inv (B M : List Nat) (t stri : Nat) (hstri : 1 ≤ stri)
    (hBM : M.length = B.length) (i : Nat) (s : RunSt)
    (h1 : 1 ≤ i) (hi : i < B.length) (hinv : RunInv B M t stri i s) :
    RunInv B M t stri (i + 1) (byPixStep stri B.length i s) := by
  have hcnd := bpCond_eq B M t stri i s hinv
  obtain ⟨hi0, hx0, hy0, hrun, hxne, hxt, hbl, hbp, hml, hmp, hcz, hcov⟩ := hinv
  simp only [byPixStep, if_neg (by omega : ¬ i = 0)]
  by_cases hc : cond0 B M t i = s.same
  · have hff : (decide (i = B.length) || (bpCond s i != s.same)) = false := by
      rw [hcnd, hc]
      simp only [bne_self_eq_false, Bool.or_false, decide_eq_false_iff_not]
      omega
    rw [hff]
    simp only [Bool.false_eq_true, if_false]
    refine ⟨by omega, hx0, hy0, ?_, hxne, hxt, hbl, hbp, hml, hmp, hcz, hcov⟩
    intro j hj1 hj2
    rcases Nat.lt_or_ge j i with h | h
    · exact hrun j hj1 h
    · have hji : j = i := by omega
      rw [hji]
      exact hc
  · have htr : (decide (i = B.length) || (bpCond s i != s.same)) = true := by
      rw [hcnd]
      simp only [Bool.or_eq_true, bne_iff_ne]
      right
      exact hc
    rw [htr]
    simp only [if_true]
    rcases Bool.eq_false_or_eq_true s.same with hst | hsf
    swap
    · -- differing run flushed into the mirror and the crop
      rw [hsf] at hc ⊢
      simp only [Bool.false_eq_true, if_false]
      rw [runInv_mk]
      have hci : cond0 B M t i = true := by
        rcases Bool.eq_false_or_eq_true (cond0 B M t i) with h | h
        · exact h
        · exact absurd h hc
      have hrunf : ∀ j, s.i0 ≤ j → j < i → cond0 B M t j = false := by
        intro j ha hb2
        rw [hrun j ha hb2, hsf]
      have hvl : ((s.bpix.drop s.i0).take (i - s.i0)).length = i - s.i0 := by
        simp only [List.length_take, List.length_drop, hbl]
        omega
      refine ⟨by omega, rfl, rfl, ?_, hxne, hxt, hbl, ?_, ?_, ?_, ?_, ?_⟩
      · intro j hj1 hj2
        have hji : j = i := by omega
        simp [hji, hci]
      · -- frame buffer untouched by a differing flush
        intro j
        rw [hbp j]
        by_cases hcv : cond0 B M t j = true
        · by_cases hlt : j < s.i0
          · rw [if_pos ⟨hlt, hcv⟩, if_pos ⟨by omega, hcv⟩]
          · rw [if_neg (by rintro ⟨h, _⟩; omega), if_neg ?_]
            rintro ⟨hji, _⟩
            rcases Nat.lt_or_ge j i with hlt2 | hge
            · exact absurd (hrunf j (by omega) hlt2) (by rw [hcv]; simp)
            · omega
        · have hcf : cond0 B M t j = false := by simpa using hcv
          rw [if_neg (by rintro ⟨_, h⟩; rw [h] at hcf; cases hcf),
            if_neg (by rintro ⟨_, h⟩; rw [h] at hcf; cases hcf)]
      · rw [setRange_length]
        exact hml
      · -- mirror receives the differing run
        intro j
        rcases Nat.lt_or_ge j s.i0 with hlt | hge
        · rw [setRange_getD_lt _ _ _ _ hlt, hmp j]
          by_cases hcv : cond0 B M t j = false
          · rw [if_pos ⟨hlt, hcv⟩, if_pos ⟨by omega, hcv⟩]
          · rw [if_neg (by rintro ⟨_, h⟩; exact hcv h), if_neg (by rintro ⟨_, h⟩; exact hcv h)]
        · rcases Nat.lt_or_ge j i with hlt2 | hge2
          · rw [setRange_getD_in _ _ _ _ hge (by omega) (by omega)]
            rw [drop_take_getD _ _ _ _ (by omega)]
            have hj2 : s.i0 + (j - s.i0) = j := by omega
            rw [hj2, hbp j, if_neg (by rintro ⟨h, _⟩; omega),
              if_pos ⟨hlt2, hrunf j hge hlt2⟩]
          · rw [setRange_getD_ge _ _ _ _ (by omega), hmp j,
              if_neg (by rintro ⟨h, _⟩; omega), if_neg (by rintro ⟨h, _⟩; omega)]
      · -- a differing index below the new run start exists, so the
        -- crop-still-zero implication is vacuous
        intro hallc
        exact absurd (hallc s.i0 (by omega)) (by rw [hrunf s.i0 (by omega) (by omega)]; simp)
      · intro j hj hcf
        have hmem : ∀ (c : Rect), s.crop.mem (j % stri) (j / stri) = true →
            (if s.crop.isEmpty = true then c else s.crop.union c).mem
              (j % stri) (j / stri) = true := by
          intro c hm
          rw [if_neg (by rw [rect_mem_not_empty _ _ _ hm]; simp)]
          exact rect_mem_union _ _ _ _ (Or.inl hm)
        rcases Nat.lt_or_ge j s.i0 with hlt | hge
        · exact hmem _ (hcov j hlt hcf)
        · -- the flushed run lies inside the new crop rectangle
          have hrmem : (if i / stri > s.y0 then (⟨0, s.y0, stri, i / stri + 1⟩ : Rect)
              else ⟨s.x0, s.y0, i % stri, i / stri + 1⟩).mem (j % stri) (j / stri) = true := by
            have hdj : stri * (j / stri) + j % stri = j := Nat.div_add_mod j stri
            have hdi : stri * (i / stri) + i % stri = i := Nat.div_add_mod i stri
            have hdi0 : stri * (s.i0 / stri) + s.i0 % stri = s.i0 := Nat.div_add_mod s.i0 stri
            have hmj : j % stri < stri := Nat.mod_lt _ (by omega)
            have hmi : i % stri < stri := Nat.mod_lt _ (by omega)
            have hmi0 : s.i0 % stri < stri := Nat.mod_lt _ (by omega)
            have hy1 : s.i0 / stri ≤ j / stri := Nat.div_le_div_right hge
            have hy2 : j / stri ≤ i / stri := Nat.div_le_div_right (by omega)
            split
            · rename_i hgt
              rw [hx0, hy0] at *
              simp only [Rect.mem, Bool.and_eq_true, decide_eq_true_eq]
              omega
            · rename_i hle
              rw [hx0, hy0] at *
              simp only [Rect.mem, Bool.and_eq_true, decide_eq_true_eq]
              have hy3 : j / stri = i / stri := by omega
              have hy4 : s.i0 / stri = i / stri := by omega
              have he1 : stri * (j / stri) = stri * (i / stri) := by rw [hy3]
              have he2 : stri * (s.i0 / stri) = stri * (i / stri) := by rw [hy4]
              omega
          split
          · exact hrmem
          · exact rect_mem_union _ _ _ _ (Or.inr hrmem)
    · -- matching run overwritten with the transparent index
      rw [hst] at hc ⊢
      simp only [if_true]
      have hci : cond0 B M t i = false := by
        rcases Bool.eq_false_or_eq_true (cond0 B M t i) with h | h
        · exact absurd h hc
        · exact h
      have hrunt : ∀ j, s.i0 ≤ j → j < i → cond0 B M t j = true := by
        intro j ha hb2
        rw [hrun j ha hb2, hst]
      have hgl : i - s.i0 ≤ (growXs s.xs (i - s.i0)).length := growXs_length _ _ hxne
      have htk : (growXs s.xs (i - s.i0)).take (i - s.i0) =
          List.replicate (i - s.i0) t :=
        take_all_t _ _ _ (growXs_mem _ _ _ hxt) hgl
      rw [htk, runInv_mk]
      refine ⟨by omega, rfl, rfl, ?_, growXs_ne _ _ hxne, growXs_mem _ _ _ hxt, ?_, ?_,
        hml, ?_, ?_, ?_⟩
      · intro j hj1 hj2
        have hji : j = i := by omega
        simp [hji, hci]
      · rw [setRange_length]
        exact hbl
      · -- frame buffer: the matching run becomes transparent
        intro j
        rcases Nat.lt_or_ge j s.i0 with hlt | hge
        · rw [setRange_getD_lt _ _ _ _ hlt, hbp j]
          by_cases hcv : cond0 B M t j = true
          · rw [if_pos ⟨hlt, hcv⟩, if_pos ⟨by omega, hcv⟩]
          · rw [if_neg (by rintro ⟨_, h⟩; exact hcv h), if_neg (by rintro ⟨_, h⟩; exact hcv h)]
        · rcases Nat.lt_or_ge j i with hlt2 | hge2
          · rw [setRange_getD_in _ _ _ _ hge
              (by simp only [List.length_replicate]; omega) (by omega)]
            rw [getD_replicate _ _ _ (by omega)]
            rw [if_pos ⟨hlt2, hrunt j hge hlt2⟩]
          · rw [setRange_getD_ge _ _ _ _ (by simp only [List.length_replicate]; omega)]
            rw [hbp j, if_neg (by rintro ⟨h, _⟩; omega), if_neg (by rintro ⟨h, _⟩; omega)]
      · -- mirror untouched by a matching flush
        intro j
        rw [hmp j]
        by_cases hlt : j < s.i0
        · by_cases hcv : cond0 B M t j = false
          · rw [if_pos ⟨hlt, hcv⟩, if_pos ⟨by omega, hcv⟩]
          · rw [if_neg (by rintro ⟨_, h⟩; exact hcv h), if_neg (by rintro ⟨_, h⟩; exact hcv h)]
        · rw [if_neg (by rintro ⟨h, _⟩; omega), if_neg ?_]
          rintro ⟨hji, hcf⟩
          rcases Nat.lt_or_ge j i with hlt2 | hge2
          · exact absurd (hrunt j (by omega) hlt2) (by rw [hcf]; simp)
          · omega
      · intro hallc
        apply hcz
        intro j hj
        exact hallc j (by omega)
      · intro j hj hcf
        rcases Nat.lt_or_ge j s.i0 with hlt | hge
        · exact hcov j hlt hcf
        · rcases Nat.lt_or_ge j i with hlt2 | hge2
          · exact absurd (hrunt j hge hlt2) (by rw [hcf]; simp)
          · omega

/-- `RunFinal` unfolded on a literal state. -/
theorem runFinal_mk (B M : List Nat) (t stri : Nat) (bp mp xs : List Nat) (cr : Rect)
    (sm : Bool) (i0 x0 y0 : Nat) :
    RunFinal B M t stri ⟨bp, mp, xs, cr, sm, i0, x0, y0⟩ ↔
      (bp.length = B.length ∧
       (∀ j, bp.getD j 0 = if j < B.length ∧ cond0 B M t j = true then t else B.getD j 0) ∧
       mp.length = M.length ∧
       (∀ j, mp.getD j 0 =
         if j < B.length ∧ cond0 B M t j = false then B.getD j 0 else M.getD j 0) ∧
       xs ≠ [] ∧ (∀ v ∈ xs, v = t) ∧
       ((∀ j, j < B.length → cond0 B M t j = true) → cr = Rect.zero) ∧
       (∀ j, j < B.length → cond0 B M t j = false →
         cr.mem (j % stri) (j / stri) = true)) :=
  Iff.rfl

/-- The final (always-flushing) iteration at `i = len` establishes the
loop post-state. -/
theorem byPixStep_final (B M : List Nat) (t stri : Nat) (hstri : 1 ≤ stri)
    (hBM : M.length = B.length) (s : RunSt) (h1 : 1 ≤ B.length)
    (hinv : RunInv B M t stri B.length s) :
    RunFinal B M t stri (byPixStep stri B.length B.length s) := by
  obtain ⟨hi0, hx0, hy0, hrun, hxne, hxt, hbl, hbp, hml, hmp, hcz, hcov⟩ := hinv
  simp only [byPixStep, if_neg (by omega : ¬ B.length = 0)]
  rw [if_pos (by simp)]
  rcases Bool.eq_false_or_eq_true s.same with hst | hsf
  · -- final run matches: overwritten with the transparent index
    rw [hst]
    simp only [if_true]
    have hrunt : ∀ j, s.i0 ≤ j → j < B.length → cond0 B M t j = true := by
      intro j ha hb2
      rw [hrun j ha hb2, hst]
    have hgl : B.length - s.i0 ≤ (growXs s.xs (B.length - s.i0)).length :=
      growXs_length _ _ hxne
    have htk : (growXs s.xs (B.length - s.i0)).take (B.length - s.i0) =
        List.replicate (B.length - s.i0) t :=
      take_all_t _ _ _ (growXs_mem _ _ _ hxt) hgl
    rw [htk, runFinal_mk]
    refine ⟨?_, ?_, hml, ?_, growXs_ne _ _ hxne, growXs_mem _ _ _ hxt, ?_, ?_⟩
    · rw [setRange_length]
      exact hbl
    · intro j
      rcases Nat.lt_or_ge j s.i0 with hlt | hge
      · rw [setRange_getD_lt _ _ _ _ hlt, hbp j]
        by_cases hcv : cond0 B M t j = true
        · rw [if_pos ⟨hlt, hcv⟩, if_pos ⟨by omega, hcv⟩]
        · rw [if_neg (by rintro ⟨_, h⟩; exact hcv h), if_neg (by rintro ⟨_, h⟩; exact hcv h)]
      · rcases Nat.lt_or_ge j B.length with hlt2 | hge2
        · rw [setRange_getD_in _ _ _ _ hge
            (by simp only [List.length_replicate]; omega) (by omega)]
          rw [getD_replicate _ _ _ (by omega)]
          rw [if_pos ⟨hlt2, hrunt j hge hlt2⟩]
        · rw [setRange_getD_ge _ _ _ _ (by simp only [List.length_replicate]; omega)]
          rw [hbp j, if_neg (by rintro ⟨h, _⟩; omega), if_neg (by rintro ⟨h, _⟩; omega)]
    · intro j
      rw [hmp j]
      by_cases hlt : j < s.i0
      · by_cases hcv : cond0 B M t j = false
        · rw [if_pos ⟨hlt, hcv⟩, if_pos ⟨by omega, hcv⟩]
        · rw [if_neg (by rintro ⟨_, h⟩; exact hcv h), if_neg (by rintro ⟨_, h⟩; exact hcv h)]
      · rw [if_neg (by rintro ⟨h, _⟩; omega), if_neg ?_]
        rintro ⟨hji, hcf⟩
        exact absurd (hrunt j (by omega) hji) (by rw [hcf]; simp)
    · intro hallc
      apply hcz
      intro j hj
      exact hallc j (by omega)
    · intro j hj hcf
      rcases Nat.lt_or_ge j s.i0 with hlt | hge
      · exact hcov j hlt hcf
      · exact absurd (hrunt j hge hj) (by rw [hcf]; simp)
  · -- final run differs: flushed into the mirror and the crop
    rw [hsf]
    simp only [Bool.false_eq_true, if_false]
    rw [runFinal_mk]
    have hrunf : ∀ j, s.i0 ≤ j → j < B.length → cond0 B M t j = false := by
      intro j ha hb2
      rw [hrun j ha hb2, hsf]
    refine ⟨hbl, ?_, ?_, ?_, hxne, hxt, ?_, ?_⟩
    · intro j
      rw [hbp j]
      by_cases hcv : cond0 B M t j = true
      · by_cases hlt : j < s.i0
        · rw [if_pos ⟨hlt, hcv⟩, if_pos ⟨by omega, hcv⟩]
        · rw [if_neg (by rintro ⟨h, _⟩; omega), if_neg ?_]
          rintro ⟨hji, _⟩
          exact absurd (hrunf j (by omega) hji) (by rw [hcv]; simp)
      · have hcf : cond0 B M t j = false := by simpa using hcv
        rw [if_neg (by rintro ⟨_, h⟩; rw [h] at hcf; cases hcf),
          if_neg (by rintro ⟨_, h⟩; rw [h] at hcf; cases hcf)]
    · rw [setRange_length]
      exact hml
    · intro j
      rcases Nat.lt_or_ge j s.i0 with hlt | hge
      · rw [setRange_getD_lt _ _ _ _ hlt, hmp j]
        by_cases hcv : cond0 B M t j = false
        · rw [if_pos ⟨hlt, hcv⟩, if_pos ⟨by omega, hcv⟩]
        · rw [if_neg (by rintro ⟨_, h⟩; exact hcv h), if_neg (by rintro ⟨_, h⟩; exact hcv h)]
      · have hvl : ((s.bpix.drop s.i0).take (B.length - s.i0)).length = B.length - s.i0 := by
          simp only [List.length_take, List.length_drop, hbl]
          omega
        rcases Nat.lt_or_ge j B.length with hlt2 | hge2
        · rw [setRange_getD_in _ _ _ _ hge (by rw [hvl]; omega) (by omega)]
          rw [drop_take_getD _ _ _ _ (by omega)]
          have hj2 : s.i0 + (j - s.i0) = j := by omega
          rw [hj2, hbp j, if_neg (by rintro ⟨h, _⟩; omega),
            if_pos ⟨hlt2, hrunf j hge hlt2⟩]
        · rw [setRange_getD_ge _ _ _ _ (by rw [hvl]; omega), hmp j,
            if_neg (by rintro ⟨h, _⟩; omega), if_neg (by rintro ⟨h, _⟩; omega)]
    · intro hallc
      exact absurd (hallc s.i0 (by omega)) (by rw [hrunf s.i0 (by omega) (by omega)]; simp)
    · intro j hj hcf
      have hmem : ∀ (c : Rect), s.crop.mem (j % stri) (j / stri) = true →
          (if s.crop.isEmpty = true then c else s.crop.union c).mem
            (j % stri) (j / stri) = true := by
        intro c hm
        rw [if_neg (by rw [rect_mem_not_empty _ _ _ hm]; simp)]
        exact rect_mem_union _ _ _ _ (Or.inl hm)
      rcases Nat.lt_or_ge j s.i0 with hlt | hge
      · exact hmem _ (hcov j hlt hcf)
      · have hrmem : (if B.length / stri > s.y0 then
            (⟨0, s.y0, stri, B.length / stri + 1⟩ : Rect)
            else ⟨s.x0, s.y0, B.length % stri, B.length / stri + 1⟩).mem
              (j % stri) (j / stri) = true := by
          have hdj : stri * (j / stri) + j % stri = j := Nat.div_add_mod j stri
          have hdi : stri * (B.length / stri) + B.length % stri = B.length :=
            Nat.div_add_mod B.length stri
          have hdi0 : stri * (s.i0 / stri) + s.i0 % stri = s.i0 := Nat.div_add_mod s.i0 stri
          have hmj : j % stri < stri := Nat.mod_lt _ (by omega)
          have hmi : B.length % stri < stri := Nat.mod_lt _ (by omega)
          have hmi0 : s.i0 % stri < stri := Nat.mod_lt _ (by omega)
          have hy1 : s.i0 / stri ≤ j / stri := Nat.div_le_div_right hge
          have hy2 : j / stri ≤ B.length / stri := Nat.div_le_div_right (by omega)
          split
          · rename_i hgt
            rw [hx0, hy0] at *
            simp only [Rect.mem, Bool.and_eq_true, decide_eq_true_eq]
            omega
          · rename_i hle
            rw [hx0, hy0] at *
            simp only [Rect.mem, Bool.and_eq_true, decide_eq_true_eq]
            have hy3 : j / stri = B.length / stri := by omega
            have hy4 : s.i0 / stri = B.length / stri := by omega
            have he1 : stri * (j / stri) = stri * (B.length / stri) := by rw [hy3]
            have he2 : stri * (s.i0 / stri) = stri * (B.length / stri) := by rw [hy4]
            omega
        split
        · exact hrmem
        · exact rect_mem_union _ _ _ _ (Or.inr hrmem)

/-- Running the loop from any invariant state reaches the post-state. -/
theorem byPixN_run (B M : List Nat) (t stri : Nat) (hstri : 1 ≤ stri)
    (hBM : M.length = B.length) :
    ∀ (k i : Nat) (s : RunSt), 1 ≤ i → i ≤ B.length → i + k = B.length + 1 →
    RunInv B M t stri i s →
    RunFinal B M t stri (byPixN k stri B.length i s) := by
  intro k
  induction k with
  | zero =>
    intro i s h1 hle hk _
    exact absurd hk (by omega)
  | succ k ih =>
    intro i s h1 hle hk hinv
    simp only [byPixN, if_neg (by omega : ¬ i > B.length)]
    rcases Nat.lt_or_ge i B.length with hlt | hge
    · exact ih (i + 1) _ (by omega) (by omega) (by omega)
        (byPixStep_inv B M t stri hstri hBM i s h1 hlt hinv)
    · have hieq : i = B.length := by omega
      subst hieq
      have hfin := byPixStep_final B M t stri hstri hBM s (by omega) hinv
      cases k with
      | zero => exact hfin
      | succ k =>
        simp only [byPixN]
        rw [if_pos (by omega : B.length + 1 > B.length)]
        exact hfin

/-- The full `optimizeByPix` loop, from the initial state the source
builds, reaches the post-state. -/
theorem byPixLoop_final (B M xs₀ : List Nat) (t stri : Nat) (hstri : 1 ≤ stri)
    (hBM : M.length = B.length) (h1 : 1 ≤ B.length)
    (hxne : xs₀ ≠ []) (hxt : ∀ v ∈ xs₀, v = t) :
    RunFinal B M t stri
      (byPixLoop stri B.length ⟨B, M, xs₀, Rect.zero, false, 0, 0, 0⟩) := by
  have hx : xs₀.getD 0 0 = t := by
    rcases hxseq : xs₀ with _ | ⟨a, xs⟩
    · exact absurd hxseq hxne
    · simpa using hxt a (by rw [hxseq]; simp)
  simp only [byPixLoop, byPixN, if_neg (by omega : ¬ (0 : Nat) > B.length)]
  apply byPixN_run B M t stri hstri hBM B.length 1 _ (le_refl 1) h1 (by omega)
  simp only [byPixStep]
  rw [if_pos (by trivial)]
  have hbc : bpCond ⟨B, M, xs₀, Rect.zero, false, 0, 0, 0⟩ 0 = cond0 B M t 0 := by
    simp only [bpCond, cond0, hx]
  rw [hbc]
  rw [runInv_mk]
  refine ⟨by omega, by simp, by simp, ?_, hxne, hxt, rfl, ?_, rfl, ?_, fun _ => rfl, ?_⟩
  · intro j hj1 hj2
    have hj0 : j = 0 := by omega
    rw [hj0]
  · intro j
    rw [if_neg (by rintro ⟨h, _⟩; omega)]
  · intro j
    rw [if_neg (by rintro ⟨h, _⟩; omega)]
  · intro j hj
    omega

/-- Intersection members belong to both sides. -/
theorem rect_mem_inter_elim (r s : Rect) (x y : Nat)
    (h : (Rect.intersect r s).mem x y = true) :
    r.mem x y = true ∧ s.mem x y = true := by
  simp only [Rect.intersect] at h
  split at h
  · exfalso
    simp only [Rect.zero, Rect.mem, Bool.and_eq_true, decide_eq_true_eq] at h
    omega
  · simp only [Rect.mem, Bool.and_eq_true, decide_eq_true_eq] at h ⊢
    omega

/-- `Optimize` on the equal-geometry fast path, unfolded to the loop's
final state. -/
theorem optimize_byPix_eq (m pm : PalImg) (xs₀ : List Nat)
    (hin : pm.rect.inside m.rect = true)
    (heq : pm.rect.eqR m.rect = true) (hlen : pm.pix.length = m.pix.length) :
    optimize ⟨some m, xs₀⟩ pm =
      (let s := byPixLoop pm.stride pm.pix.length
         ⟨pm.pix, m.pix, xs₀, Rect.zero, false, 0, 0, 0⟩
       let crop := if s.crop.isEmpty then
           (⟨pm.rect.minX, pm.rect.minY, pm.rect.minX + 1, pm.rect.minY + 1⟩ : Rect)
         else s.crop
       let pm' : PalImg := { pm with pix := s.bpix }
       .ok (if !(pm'.rect.eqR crop) then pm'.subImage crop else pm',
            ⟨some { m with pix := s.mpix }, s.xs⟩)) := by
  simp only [optimize, hin, Bool.not_true, Bool.false_eq_true, if_false, heq, hlen,
    beq_self_eq_true, Bool.and_self, if_true]

/-- C10 (fast path, equal geometry): every call after the first rewrites
the caller's own pixel buffer — every index whose pixel equals the mirror
pixel or the transparent index is overwritten with the transparent index,
every other index is untouched — and the returned image is never a fresh
copy: it is the argument carrying exactly that buffer, or a sub-image of
it whose pixel list is a drop-suffix of that buffer; the optimizer state
keeps the mirror with the differing pixels copied in. -/
theorem optimize_second_call_inplace (m pm : PalImg) (xs₀ : List Nat) (t : Nat)
    (hxne : xs₀ ≠ []) (hxt : ∀ v ∈ xs₀, v = t)
    (hstri : 1 ≤ pm.stride)
    (hin : pm.rect.inside m.rect = true)
    (heq : pm.rect.eqR m.rect = true) (hlen : pm.pix.length = m.pix.length)
    (h1 : 1 ≤ pm.pix.length) :
    ∃ (bpix' : List Nat) (res : PalImg) (o' : OptState),
      optimize ⟨some m, xs₀⟩ pm = .ok (res, o') ∧
      bpix'.length = pm.pix.length ∧
      (∀ j, j < pm.pix.length → bpix'.getD j 0 =
        if cond0 pm.pix m.pix t j = true then t else pm.pix.getD j 0) ∧
      (res = { pm with pix := bpix' } ∨
        ∃ crop, res = PalImg.subImage { pm with pix := bpix' } crop) ∧
      (∃ k, res.pix = bpix'.drop k) ∧
      (∃ mpix' xs', o' = ⟨some { m with pix := mpix' }, xs'⟩ ∧
        ∀ j, j < pm.pix.length → mpix'.getD j 0 =
          if cond0 pm.pix m.pix t j = false then pm.pix.getD j 0 else m.pix.getD j 0) := by
  rw [optimize_byPix_eq m pm xs₀ hin heq hlen]
  have hfin := byPixLoop_final pm.pix m.pix xs₀ t pm.stride hstri hlen.symm h1 hxne hxt
  obtain ⟨hbl, hbp, hml, hmp, hxne', hxt', hcz, hcov⟩ := hfin
  refine ⟨(byPixLoop pm.stride pm.pix.length
      ⟨pm.pix, m.pix, xs₀, Rect.zero, false, 0, 0, 0⟩).bpix, _, _, rfl, hbl, ?_, ?_, ?_, ?_⟩
  · intro j hj
    rw [hbp j]
    by_cases hcv : cond0 pm.pix m.pix t j = true
    · rw [if_pos ⟨hj, hcv⟩, if_pos hcv]
    · rw [if_neg (by rintro ⟨_, h⟩; exact hcv h), if_neg hcv]
  · split
    · split
      · exact Or.inr ⟨_, rfl⟩
      · exact Or.inl rfl
    · split
      · exact Or.inr ⟨_, rfl⟩
      · exact Or.inl rfl
  · split
    · split
      · simp only [PalImg.subImage]
        split
        · exact ⟨_, (List.drop_length _).symm⟩
        · exact ⟨_, rfl⟩
      · exact ⟨0, rfl⟩
    · split
      · simp only [PalImg.subImage]
        split
        · exact ⟨_, (List.drop_length _).symm⟩
        · exact ⟨_, rfl⟩
      · exact ⟨0, rfl⟩
  · refine ⟨_, _, rfl, ?_⟩
    intro j hj
    rw [hmp j]
    by_cases hcv : cond0 pm.pix m.pix t j = false
    · rw [if_pos ⟨hj, hcv⟩, if_pos hcv]
    · rw [if_neg (by rintro ⟨_, h⟩; exact hcv h), if_neg hcv]

/-- Witness for the in-place mutation theorem: a concrete 2×1 second call
whose pixels all match the mirror or the transparent index. -/
theorem optimize_second_call_inplace_witness :
    (([2] : List Nat) ≠ [] ∧ ∀ v ∈ ([2] : List Nat), v = 2) ∧
    ∃ (bpix' : List Nat) (res : PalImg) (o' : OptState),
      optimize ⟨some ⟨⟨0, 0, 2, 1⟩, 2, [0, 1], []⟩, [2]⟩ ⟨⟨0, 0, 2, 1⟩, 2, [0, 2], []⟩ =
        .ok (res, o') ∧
      bpix'.length = 2 ∧
      (∀ j, j < 2 → bpix'.getD j 0 =
        if cond0 [0, 2] [0, 1] 2 j = true then 2 else ([0, 2] : List Nat).getD j 0) ∧
      (res = (⟨⟨0, 0, 2, 1⟩, 2, bpix', []⟩ : PalImg) ∨
        ∃ crop, res = PalImg.subImage (⟨⟨0, 0, 2, 1⟩, 2, bpix', []⟩ : PalImg) crop) ∧
      (∃ k, res.pix = bpix'.drop k) ∧
      (∃ mpix' xs', o' = ⟨some ⟨⟨0, 0, 2, 1⟩, 2, mpix', []⟩, xs'⟩ ∧
        ∀ j, j < 2 → mpix'.getD j 0 =
          if cond0 [0, 2] [0, 1] 2 j = false then ([0, 2] : List Nat).getD j 0
          else ([0, 1] : List Nat).getD j 0) :=
  ⟨⟨by decide, by decide⟩,
   optimize_second_call_inplace ⟨⟨0, 0, 2, 1⟩, 2, [0, 1], []⟩ ⟨⟨0, 0, 2, 1⟩, 2, [0, 2], []⟩
     [2] 2 (by decide) (by decide) (by decide) (by decide) (by decide) (by decide)
     (by decide)⟩

/-- C9 (fast path, equal geometry): when every pixel of the input equals
the corresponding mirror pixel, no difference is flushed, the crop stays
empty and `Optimize` substitutes the 1×1 rectangle at the input's origin:
the returned image is the 1×1 sub-image at the frame's minimum corner,
sharing the input's stride and palette. -/
theorem optimize_all_same_one_pixel (m pm : PalImg) (xs₀ : List Nat) (t : Nat)
    (hxne : xs₀ ≠ []) (hxt : ∀ v ∈ xs₀, v = t)
    (hstri : 1 ≤ pm.stride)
    (hin : pm.rect.inside m.rect = true)
    (heq : pm.rect.eqR m.rect = true) (hlen : pm.pix.length = m.pix.length)
    (h1 : 1 ≤ pm.pix.length)
    (hw1 : pm.rect.minX + 1 ≤ pm.rect.maxX) (hh1 : pm.rect.minY + 1 ≤ pm.rect.maxY)
    (hsame : ∀ j, j < pm.pix.length → pm.pix.getD j 0 = m.pix.getD j 0) :
    ∃ res o', optimize ⟨some m, xs₀⟩ pm = .ok (res, o') ∧
      res.rect = ⟨pm.rect.minX, pm.rect.minY, pm.rect.minX + 1, pm.rect.minY + 1⟩ ∧
      res.stride = pm.stride ∧ res.palette = pm.palette := by
  rw [optimize_byPix_eq m pm xs₀ hin heq hlen]
  have hfin := byPixLoop_final pm.pix m.pix xs₀ t pm.stride hstri hlen.symm h1 hxne hxt
  obtain ⟨hbl, hbp, hml, hmp, hxne', hxt', hcz, hcov⟩ := hfin
  have hallc : ∀ j, j < pm.pix.length → cond0 pm.pix m.pix t j = true := by
    intro j hj
    simp only [cond0, Bool.or_eq_true, beq_iff_eq]
    left
    exact hsame j hj
  have hzero := hcz hallc
  have hr' : Rect.intersect
      ⟨pm.rect.minX, pm.rect.minY, pm.rect.minX + 1, pm.rect.minY + 1⟩ pm.rect =
      ⟨pm.rect.minX, pm.rect.minY, pm.rect.minX + 1, pm.rect.minY + 1⟩ := by
    simp only [Rect.intersect]
    rw [if_neg (by
      simp only [Rect.isEmpty, Bool.or_eq_true, decide_eq_true_eq]
      rintro (h | h) <;> omega)]
    simp only [Rect.mk.injEq]
    refine ⟨by omega, by omega, by omega, by omega⟩
  have hce : (⟨pm.rect.minX, pm.rect.minY, pm.rect.minX + 1, pm.rect.minY + 1⟩ :
      Rect).isEmpty = false := by
    simp only [Rect.isEmpty, Bool.or_eq_false_iff, decide_eq_false_iff_not]
    constructor <;> simp
  refine ⟨_, _, rfl, ?_, ?_, ?_⟩ <;>
  · rw [hzero, show Rect.zero.isEmpty = true from rfl]
    simp only [if_true]
    split
    · simp only [PalImg.subImage, hr', hce, Bool.false_eq_true, if_false]
    · rename_i hne
      have heq2 : pm.rect =
          ⟨pm.rect.minX, pm.rect.minY, pm.rect.minX + 1, pm.rect.minY + 1⟩ := by
        have h' : pm.rect.eqR
            ⟨pm.rect.minX, pm.rect.minY, pm.rect.minX + 1, pm.rect.minY + 1⟩ = true := by
          rcases Bool.eq_false_or_eq_true (pm.rect.eqR
            ⟨pm.rect.minX, pm.rect.minY, pm.rect.minX + 1, pm.rect.minY + 1⟩) with h | h
          · exact h
          · exact absurd (by rw [h]; rfl) hne
        simp only [Rect.eqR, hce, Bool.and_false, Bool.or_false, beq_iff_eq] at h'
        exact h'
      first
      | exact heq2
      | rfl

/-- Witness for the all-equal theorem: a concrete 2×1 second call whose
pixels equal the mirror's. -/
theorem optimize_all_same_one_pixel_witness :
    (∀ j, j < (⟨⟨0, 0, 2, 1⟩, 2, [5, 5], []⟩ : PalImg).pix.length →
      (⟨⟨0, 0, 2, 1⟩, 2, [5, 5], []⟩ : PalImg).pix.getD j 0 =
        (⟨⟨0, 0, 2, 1⟩, 2, [5, 5], []⟩ : PalImg).pix.getD j 0) ∧
    ∃ res o', optimize ⟨some ⟨⟨0, 0, 2, 1⟩, 2, [5, 5], []⟩, [0]⟩
        ⟨⟨0, 0, 2, 1⟩, 2, [5, 5], []⟩ = .ok (res, o') ∧
      res.rect = ⟨0, 0, 1, 1⟩ ∧ res.stride = 2 ∧ res.palette = [] :=
  ⟨fun _ _ => rfl,
   optimize_all_same_one_pixel ⟨⟨0, 0, 2, 1⟩, 2, [5, 5], []⟩ ⟨⟨0, 0, 2, 1⟩, 2, [5, 5], []⟩
     [0] 0 (by decide) (by decide) (by decide) (by decide) (by decide) (by decide)
     (by decide) (by decide) (by decide) (fun _ _ => rfl)⟩

/-- Reading through a drop hits the underlying list. -/
theorem drop_getD (l : List Nat) (k r : Nat) :
    (l.drop k).getD r 0 = l.getD (k + r) 0 := by
  simp only [List.getD_eq_getElem?_getD, List.getElem?_drop]

/-- Membership unfolded to bounds. -/
theorem rect_mem_iff (r : Rect) (x y : Nat) :
    r.mem x y = true ↔ (r.minX ≤ x ∧ x < r.maxX ∧ r.minY ≤ y ∧ y < r.maxY) := by
  simp only [Rect.mem, Bool.and_eq_true, decide_eq_true_eq]
  constructor
  · intro h
    omega
  · intro h
    omega

/-- C2 (amended): for frames `A` (the mirror `m`) and `B` (the input `pm`)
with identical rectangles, contiguous buffers anchored at the origin and a
shared stride, compositing the image returned by `Optimize(B)` over `A`
under preserve-disposal renders pixel-for-pixel identically to *compositing
`B` over `A`* (not to `B`'s raw pixels: a pixel transparent in `B` itself
shows `A` in both composites), and every pixel of the returned image that
equals the transparent index lies at a position where `B` equals `A` *or
`B` itself is transparent*. -/
theorem optimize_render_equal (m pm : PalImg) (xs₀ : List Nat) (t : Nat)
    (hxne : xs₀ ≠ []) (hxt : ∀ v ∈ xs₀, v = t)
    (hminX : pm.rect.minX = 0) (hminY : pm.rect.minY = 0)
    (hstr : pm.stride = pm.rect.maxX)
    (hpl : pm.pix.length = pm.rect.maxX * pm.rect.maxY)
    (hw1 : 1 ≤ pm.rect.maxX) (hh1 : 1 ≤ pm.rect.maxY)
    (hmr : m.rect = pm.rect) (hms : m.stride = pm.stride)
    (hlen : pm.pix.length = m.pix.length) :
    ∃ res o', optimize ⟨some m, xs₀⟩ pm = .ok (res, o') ∧
      (∀ x y, x < pm.rect.maxX → y < pm.rect.maxY →
        composite m res t x y = composite m pm t x y) ∧
      (∀ x y, res.rect.mem x y = true → res.pixAt x y = t →
        pm.pixAt x y = m.pixAt x y ∨ pm.pixAt x y = t) := by
  have hin : pm.rect.inside m.rect = true := by
    rw [hmr]
    simp only [Rect.inside]
    split
    · rfl
    · simp
  have heq : pm.rect.eqR m.rect = true := by
    rw [hmr]
    simp [Rect.eqR]
  have h1 : 1 ≤ pm.pix.length := by
    rw [hpl]
    exact Nat.mul_pos hw1 hh1
  have hstri : 1 ≤ pm.stride := by omega
  rw [optimize_byPix_eq m pm xs₀ hin heq hlen]
  have hfin := byPixLoop_final pm.pix m.pix xs₀ t pm.stride hstri hlen.symm h1 hxne hxt
  obtain ⟨hbl, hbp, hml, hmp, hxne2, hxt2, hcz, hcov⟩ := hfin
  set S := byPixLoop pm.stride pm.pix.length
    ⟨pm.pix, m.pix, xs₀, Rect.zero, false, 0, 0, 0⟩ with hS
  have hidx : ∀ x y, x < pm.rect.maxX → y < pm.rect.maxY →
      y * pm.stride + x < pm.pix.length := by
    intro x y hx hy
    rw [hpl, hstr]
    calc y * pm.rect.maxX + x < y * pm.rect.maxX + pm.rect.maxX := by omega
    _ = (y + 1) * pm.rect.maxX := by ring
    _ ≤ pm.rect.maxY * pm.rect.maxX := Nat.mul_le_mul_right _ (by omega)
    _ = pm.rect.maxX * pm.rect.maxY := Nat.mul_comm _ _
  have hxy : ∀ x y, x < pm.rect.maxX →
      (y * pm.stride + x) % pm.stride = x ∧ (y * pm.stride + x) / pm.stride = y := by
    intro x y hx
    have hxs : x < pm.stride := by rw [hstr]; exact hx
    constructor
    · rw [Nat.add_comm, Nat.add_mul_mod_self_right]
      exact Nat.mod_eq_of_lt hxs
    · rw [Nat.add_comm, Nat.add_mul_div_right _ _ (by omega : 0 < pm.stride),
        Nat.div_eq_of_lt hxs]
      omega
  have hpmAt : ∀ x y, pm.pixAt x y = pm.pix.getD (y * pm.stride + x) 0 := by
    intro x y
    simp only [PalImg.pixAt, PalImg.pixOffset, hminX, hminY, Nat.sub_zero]
  have hmAt : ∀ x y, m.pixAt x y = m.pix.getD (y * pm.stride + x) 0 := by
    intro x y
    simp only [PalImg.pixAt, PalImg.pixOffset, hmr, hms, hminX, hminY, Nat.sub_zero]
  have hcovxy : ∀ x y, x < pm.rect.maxX → y < pm.rect.maxY →
      cond0 pm.pix m.pix t (y * pm.stride + x) = false → S.crop.mem x y = true := by
    intro x y hx hy hc
    have hm := hcov _ (hidx x y hx hy) hc
    rwa [(hxy x y hx).1, (hxy x y hx).2] at hm
  have hc1e : (⟨pm.rect.minX, pm.rect.minY, pm.rect.minX + 1, pm.rect.minY + 1⟩ :
      Rect).isEmpty = false := by
    simp only [Rect.isEmpty, Bool.or_eq_false_iff, decide_eq_false_iff_not]
    constructor <;> simp
  have hshape : ∃ R : Rect,
      (if (!(({ pm with pix := S.bpix } : PalImg).rect.eqR
          (if S.crop.isEmpty = true then
            ⟨pm.rect.minX, pm.rect.minY, pm.rect.minX + 1, pm.rect.minY + 1⟩
          else S.crop))) = true
       then ({ pm with pix := S.bpix } : PalImg).subImage
          (if S.crop.isEmpty = true then
            ⟨pm.rect.minX, pm.rect.minY, pm.rect.minX + 1, pm.rect.minY + 1⟩
          else S.crop)
       else { pm with pix := S.bpix }) =
        ⟨R, pm.stride, S.bpix.drop (R.minY * pm.stride + R.minX), pm.palette⟩ ∧
      (∀ x y, x < pm.rect.maxX → y < pm.rect.maxY →
        cond0 pm.pix m.pix t (y * pm.stride + x) = false → R.mem x y = true) ∧
      (∀ x y, R.mem x y = true → x < pm.rect.maxX ∧ y < pm.rect.maxY) := by
    by_cases hall : ∀ j, j < pm.pix.length → cond0 pm.pix m.pix t j = true
    · have hzero := hcz hall
      rw [hzero, show Rect.zero.isEmpty = true from rfl]
      simp only [if_true]
      have hr' : Rect.intersect
          ⟨pm.rect.minX, pm.rect.minY, pm.rect.minX + 1, pm.rect.minY + 1⟩ pm.rect =
          ⟨pm.rect.minX, pm.rect.minY, pm.rect.minX + 1, pm.rect.minY + 1⟩ := by
        simp only [Rect.intersect]
        rw [if_neg (by
          simp only [Rect.isEmpty, Bool.or_eq_true, decide_eq_true_eq]
          rintro (h | h) <;> omega)]
        simp only [Rect.mk.injEq]
        refine ⟨by omega, by omega, by omega, by omega⟩
      split
      · refine ⟨⟨pm.rect.minX, pm.rect.minY, pm.rect.minX + 1, pm.rect.minY + 1⟩,
          ?_, ?_, ?_⟩
        · simp only [PalImg.subImage, hr', hc1e, Bool.false_eq_true, if_false]
          simp only [PalImg.pixOffset, hminX, hminY, Nat.sub_zero, Nat.sub_self,
            Nat.zero_mul, Nat.mul_zero, Nat.add_zero, Nat.zero_add]
        · intro x y hx hy hcf
          exact absurd (hall _ (hidx x y hx hy)) (by rw [hcf]; simp)
        · intro x y hmxy
          simp only [rect_mem_iff] at hmxy
          exact ⟨by omega, by omega⟩
      · rename_i hne2
        have heq2 : pm.rect =
            ⟨pm.rect.minX, pm.rect.minY, pm.rect.minX + 1, pm.rect.minY + 1⟩ := by
          have h' : (({ pm with pix := S.bpix } : PalImg).rect.eqR
              ⟨pm.rect.minX, pm.rect.minY, pm.rect.minX + 1, pm.rect.minY + 1⟩) = true := by
            rcases Bool.eq_false_or_eq_true (({ pm with pix := S.bpix } : PalImg).rect.eqR
              ⟨pm.rect.minX, pm.rect.minY, pm.rect.minX + 1, pm.rect.minY + 1⟩) with h | h
            · exact h
            · exact absurd (by rw [h]; rfl) hne2
          simp only [Rect.eqR, hc1e, Bool.and_false, Bool.or_false, beq_iff_eq] at h'
          exact h'
        refine ⟨pm.rect, ?_, ?_, ?_⟩
        · simp only [hminX, hminY, Nat.mul_zero, Nat.zero_mul, Nat.add_zero,
            List.drop_zero]
        · intro x y hx hy hcf
          simp only [rect_mem_iff]
          omega
        · intro x y hmxy
          simp only [rect_mem_iff] at hmxy
          exact ⟨by omega, by omega⟩
    · push_neg at hall
      obtain ⟨j₀, hj₀, hc₀⟩ := hall
      have hc₀' : cond0 pm.pix m.pix t j₀ = false := by simpa using hc₀
      have hmem₀ := hcov j₀ hj₀ hc₀'
      have hne : S.crop.isEmpty = false := rect_mem_not_empty _ _ _ hmem₀
      rw [hne]
      simp only [Bool.false_eq_true, if_false]
      have hx₀ : j₀ % pm.stride < pm.rect.maxX := by
        rw [← hstr]
        exact Nat.mod_lt _ (by omega)
      have hy₀ : j₀ / pm.stride < pm.rect.maxY := by
        rw [Nat.div_lt_iff_lt_mul (by omega : 0 < pm.stride)]
        calc j₀ < pm.pix.length := hj₀
        _ = pm.rect.maxX * pm.rect.maxY := hpl
        _ = pm.rect.maxY * pm.stride := by rw [hstr]; ring
      have hpmem₀ : pm.rect.mem (j₀ % pm.stride) (j₀ / pm.stride) = true := by
        simp only [rect_mem_iff]
        exact ⟨by rw [hminX]; exact Nat.zero_le _, hx₀,
          by rw [hminY]; exact Nat.zero_le _, hy₀⟩
      split
      · have hrmem : (Rect.intersect S.crop pm.rect).mem
            (j₀ % pm.stride) (j₀ / pm.stride) = true :=
          rect_mem_inter _ _ _ _ hmem₀ hpmem₀
        have hrne : (Rect.intersect S.crop pm.rect).isEmpty = false :=
          rect_mem_not_empty _ _ _ hrmem
        refine ⟨Rect.intersect S.crop pm.rect, ?_, ?_, ?_⟩
        · simp only [PalImg.subImage, hrne, Bool.false_eq_true, if_false,
            PalImg.pixOffset, hminX, hminY, Nat.sub_zero]
        · intro x y hx hy hcf
          exact rect_mem_inter _ _ _ _ (hcovxy x y hx hy hcf)
            (by simp only [rect_mem_iff]; omega)
        · intro x y hmxy
          have h2 := (rect_mem_inter_elim _ _ _ _ hmxy).2
          simp only [rect_mem_iff] at h2
          exact ⟨by omega, by omega⟩
      · rename_i hne2
        have heqr : pm.rect = S.crop := by
          have h' : (({ pm with pix := S.bpix } : PalImg).rect.eqR S.crop) = true := by
            rcases Bool.eq_false_or_eq_true
              (({ pm with pix := S.bpix } : PalImg).rect.eqR S.crop) with h | h
            · exact h
            · exact absurd (by rw [h]; rfl) hne2
          simp only [Rect.eqR, hne, Bool.and_false, Bool.or_false, beq_iff_eq] at h'
          exact h'
        refine ⟨pm.rect, ?_, ?_, ?_⟩
        · simp only [hminX, hminY, Nat.mul_zero, Nat.zero_mul, Nat.add_zero,
            List.drop_zero]
        · intro x y hx hy hcf
          simp only [rect_mem_iff]
          omega
        · intro x y hmxy
          simp only [rect_mem_iff] at hmxy
          exact ⟨by omega, by omega⟩
  obtain ⟨R, hres, hRcov, hRbnd⟩ := hshape
  have hresAt : ∀ x y, R.mem x y = true →
      (⟨R, pm.stride, S.bpix.drop (R.minY * pm.stride + R.minX), pm.palette⟩ :
        PalImg).pixAt x y = S.bpix.getD (y * pm.stride + x) 0 := by
    intro x y hm
    simp only [rect_mem_iff] at hm
    obtain ⟨hm1, hm2, hm3, hm4⟩ := hm
    simp only [PalImg.pixAt, PalImg.pixOffset]
    rw [drop_getD]
    congr 1
    have hs1 : (y - R.minY) * pm.stride = y * pm.stride - R.minY * pm.stride :=
      Nat.sub_mul _ _ _
    have hs2 : R.minY * pm.stride ≤ y * pm.stride := Nat.mul_le_mul_right _ hm3
    omega
  have hnotmem : ∀ x y, x < pm.rect.maxX → y < pm.rect.maxY → R.mem x y = false →
      cond0 pm.pix m.pix t (y * pm.stride + x) = true := by
    intro x y hx hy hf
    rcases Bool.eq_false_or_eq_true (cond0 pm.pix m.pix t (y * pm.stride + x)) with h | h
    · exact h
    · exact absurd (hRcov x y hx hy h) (by rw [hf]; simp)
  have hRHS : ∀ x y, x < pm.rect.maxX → y < pm.rect.maxY →
      cond0 pm.pix m.pix t (y * pm.stride + x) = true →
      (if pm.rect.mem x y = true ∧ pm.pixAt x y ≠ t then pm.pixAt x y
       else m.pixAt x y) = m.pixAt x y := by
    intro x y hx hy hcv
    simp only [cond0, Bool.or_eq_true, beq_iff_eq] at hcv
    rcases hcv with hbm | hbt
    · by_cases hbt2 : pm.pixAt x y = t
      · rw [if_neg (by rintro ⟨_, hne⟩; exact hne hbt2)]
      · rw [if_pos ⟨(by simp only [rect_mem_iff]; omega), hbt2⟩, hpmAt, hmAt, hbm]
    · rw [if_neg (by rintro ⟨_, hne⟩; exact hne (by rw [hpmAt]; exact hbt))]
  refine ⟨_, _, rfl, ?_, ?_⟩
  · intro x y hx hy
    rw [hres]
    have hj := hidx x y hx hy
    simp only [composite]
    rcases Bool.eq_false_or_eq_true (R.mem x y) with hm | hm
    · by_cases hcv : cond0 pm.pix m.pix t (y * pm.stride + x) = true
      · have hval : S.bpix.getD (y * pm.stride + x) 0 = t := by
          rw [hbp, if_pos ⟨hj, hcv⟩]
        rw [hresAt x y hm, hval]
        rw [if_neg (by rintro ⟨_, hne2⟩; exact hne2 rfl)]
        exact (hRHS x y hx hy hcv).symm
      · have hbt : pm.pix.getD (y * pm.stride + x) 0 ≠ t := by
          have hcf : cond0 pm.pix m.pix t (y * pm.stride + x) = false := by
            simpa using hcv
          simp only [cond0, Bool.or_eq_false_iff, beq_eq_false_iff_ne] at hcf
          exact hcf.2
        have hval : S.bpix.getD (y * pm.stride + x) 0 =
            pm.pix.getD (y * pm.stride + x) 0 := by
          rw [hbp, if_neg (by rintro ⟨_, hcc⟩; exact hcv hcc)]
        rw [hresAt x y hm, hval]
        rw [if_pos ⟨hm, hbt⟩]
        rw [if_pos ⟨(show pm.rect.mem x y = true by simp only [rect_mem_iff]; omega),
          (by rw [hpmAt]; exact hbt)⟩]
        rw [hpmAt]
    · have hcv := hnotmem x y hx hy hm
      rw [if_neg (show ¬((⟨R, pm.stride,
          S.bpix.drop (R.minY * pm.stride + R.minX), pm.palette⟩ :
            PalImg).rect.mem x y = true ∧
          (⟨R, pm.stride, S.bpix.drop (R.minY * pm.stride + R.minX), pm.palette⟩ :
            PalImg).pixAt x y ≠ t) by
        rintro ⟨hmm, _⟩
        have hmm' : R.mem x y = true := hmm
        rw [hm] at hmm'
        cases hmm')]
      exact (hRHS x y hx hy hcv).symm
  · rw [hres]
    intro x y hm hv
    obtain ⟨hx, hy⟩ := hRbnd x y hm
    rw [hresAt x y hm, hbp] at hv
    by_cases hcond : ((y * pm.stride + x) < pm.pix.length ∧
        cond0 pm.pix m.pix t (y * pm.stride + x) = true)
    · have hcv := hcond.2
      simp only [cond0, Bool.or_eq_true, beq_iff_eq] at hcv
      rw [hpmAt, hmAt]
      exact hcv
    · rw [if_neg hcond] at hv
      right
      rw [hpmAt]
      exact hv

/-- Witness for the render-equality theorem: a concrete 2×1 second call
with one matching and one transparent pixel. -/
theorem optimize_render_equal_witness :
    (([2] : List Nat) ≠ [] ∧ ∀ v ∈ ([2] : List Nat), v = 2) ∧
    ∃ res o', optimize ⟨some ⟨⟨0, 0, 2, 1⟩, 2, [0, 1], []⟩, [2]⟩
        ⟨⟨0, 0, 2, 1⟩, 2, [0, 2], []⟩ = .ok (res, o') ∧
      (∀ x y, x < 2 → y < 1 →
        composite ⟨⟨0, 0, 2, 1⟩, 2, [0, 1], []⟩ res 2 x y =
          composite ⟨⟨0, 0, 2, 1⟩, 2, [0, 1], []⟩ ⟨⟨0, 0, 2, 1⟩, 2, [0, 2], []⟩ 2 x y) ∧
      (∀ x y, res.rect.mem x y = true → res.pixAt x y = 2 →
        (⟨⟨0, 0, 2, 1⟩, 2, [0, 2], []⟩ : PalImg).pixAt x y =
          (⟨⟨0, 0, 2, 1⟩, 2, [0, 1], []⟩ : PalImg).pixAt x y ∨
        (⟨⟨0, 0, 2, 1⟩, 2, [0, 2], []⟩ : PalImg).pixAt x y = 2) :=
  ⟨⟨by decide, by decide⟩,
   optimize_render_equal ⟨⟨0, 0, 2, 1⟩, 2, [0, 1], []⟩ ⟨⟨0, 0, 2, 1⟩, 2, [0, 2], []⟩ [2] 2
     (by decide) (by decide) (by decide) (by decide) (by decide) (by decide) (by decide)
     (by decide) (by decide) (by decide) (by decide)⟩

/-- C2 counterexample to the claim as stated, on the 3×1 frames
`A = [0,0,0]`, `B = [1,2,1]` with transparent index 2: the middle pixel is
transparent in `B` itself, so the returned image keeps it transparent and
the composite over `A` shows `A`'s pixel 0 there — the composite does
*not* render identically to `B`'s raw pixels — and that pixel lies inside
the returned crop, equals the transparent index, yet `B` differs from `A`
at its position. -/
theorem optimize_render_cex :
    ∃ res o',
      optimize ⟨some ⟨⟨0, 0, 3, 1⟩, 3, [0, 0, 0], []⟩, [2]⟩
        (⟨⟨0, 0, 3, 1⟩, 3, [1, 2, 1], []⟩ : PalImg) = .ok (res, o') ∧
      composite ⟨⟨0, 0, 3, 1⟩, 3, [0, 0, 0], []⟩ res 2 1 0 = 0 ∧
      (⟨⟨0, 0, 3, 1⟩, 3, [1, 2, 1], []⟩ : PalImg).pixAt 1 0 = 2 ∧
      res.rect.mem 1 0 = true ∧ res.pixAt 1 0 = 2 ∧
      (⟨⟨0, 0, 3, 1⟩, 3, [0, 0, 0], []⟩ : PalImg).pixAt 1 0 = 0 := by
  exact ⟨_, _, rfl, by decide, by decide, by decide, by decide, by decide⟩

end Gifx
